import Mathlib

/-!
Verification of the crawler-server batch ingestion service.

The development shallowly embeds `src/crawler_server/app.py`: pure helper
functions become Lean functions, the process-wide state (`last_batch`, the
S3 bucket contents) becomes an explicit `ServerState` threaded through a
`handle` step function, machine-level library calls (SHA3-256, UTF-8,
JSON, gzip) are modelled by executable Lean functions faithful to the
library behaviour the code relies on, and fallible code returns
`Except`/`Option`.
-/

/-! ## Characters used in renderings and parsing

Named characters avoid quoting issues; values are ASCII code points. -/

def quoteChar : Char := Char.ofNat 34

def backslashChar : Char := Char.ofNat 92

def slashChar : Char := Char.ofNat 47

def minusChar : Char := Char.ofNat 45

def spaceChar : Char := Char.ofNat 32

def commaChar : Char := Char.ofNat 44

def colonChar : Char := Char.ofNat 58

def lbrackChar : Char := Char.ofNat 91

def rbrackChar : Char := Char.ofNat 93

def lbraceChar : Char := Char.ofNat 123

def rbraceChar : Char := Char.ofNat 125

/-- ASCII decimal digit test (models the digits emitted by Python `str`). -/
def isDigitChar (c : Char) : Bool := 48 ≤ c.toNat && c.toNat ≤ 57

/-- Lowercase hexadecimal digit character for a value below 16. -/
def hexDig (d : Nat) : Char := Char.ofNat (if d < 10 then 48 + d else 87 + d)

/-- Decimal digit characters of a natural number, most significant first.
Models Python `str` on a non-negative `int`. -/
def natChars (n : Nat) : List Char :=
  if _h : n < 10 then [hexDig n]
  else natChars (n / 10) ++ [hexDig (n % 10)]
termination_by n
decreasing_by exact Nat.div_lt_self (by omega) (by omega)

/-- Models Python `str(n)` for a non-negative integer. -/
def natStr (n : Nat) : String := ⟨natChars n⟩

/-- Models Python `str(i)` for an arbitrary integer (used by the JSON encoder). -/
def intChars (i : Int) : List Char :=
  if i < 0 then minusChar :: natChars i.natAbs else natChars i.natAbs

/-- Models Python `str.zfill` on a digit string: left-pad with zeros to `width`. -/
def zfill (width : Nat) (s : String) : String :=
  if width ≤ s.length then s
  else ⟨List.replicate (width - s.length) (Char.ofNat 48) ++ s.data⟩

/-- Fixed-width lowercase hexadecimal rendering, most significant digit first
(models Python `'%0kx' % n` for `n < 16^k`). -/
def hexPad (k n : Nat) : List Char :=
  ((List.range k).reverse).map fun i => hexDig (n / 16 ^ i % 16)

/-- Value of a string of decimal digit characters. -/
def digitsVal (ds : List Char) : Nat := ds.foldl (fun a c => 10 * a + (c.toNat - 48)) 0

/-! ## Python string-order and slicing primitives used by the query service -/

/-- Strict lexicographic order on character lists by code point
(the order Python uses to compare `str` values). -/
def lexLt : List Char → List Char → Bool
  | _, [] => false
  | [], _ :: _ => true
  | a :: as, b :: bs => if a < b then true else if b < a then false else lexLt as bs

/-- Non-strict string order `a ≤ b` as Python `sorted` produces it. -/
def strLe (a b : String) : Bool := ! lexLt b.data a.data

/-- Models Python `s.endswith(suffix)`. -/
def pyEndsWith (s sfx : String) : Bool := sfx.data.isSuffixOf s.data

/-- Models Python `s[:-n]` for `0 < n ≤ len(s)` (drop the last `n` characters). -/
def pyDropRight (s : String) (n : Nat) : String := ⟨s.data.take (s.data.length - n)⟩

/-- Models Python `s.rsplit('/', 1)[1]` on a string containing a slash:
the segment after the last slash. -/
def afterLastSlash (s : String) : String :=
  ⟨(s.data.reverse.takeWhile fun c => c ≠ slashChar).reverse⟩

/-- Models Python `s.startswith(p)` / the S3 `Prefix=` filter condition. -/
def strHasPfx (p s : String) : Bool := p.data.isPrefixOf s.data

/-- Models Python `s.strip('/')`: remove leading and trailing slashes. -/
def pyStripSlash (s : String) : String :=
  ⟨((s.data.dropWhile fun c => c = slashChar).reverse.dropWhile fun c => c = slashChar).reverse⟩

/-- Models Python `sorted` on a list of strings (stable, ascending by `<`;
on strings all ties are identical elements, so any correct sort agrees). -/
def sortedStrings (l : List String) : List String := l.mergeSort strLe

/-- Map a fallible function over a list, aborting on the first failure
(a Python comprehension or generator whose body may raise). -/
def mapOrNone (f : α → Option β) : List α → Option (List β)
  | [] => some []
  | x :: xs =>
    match f x with
    | none => none
    | some y => (mapOrNone f xs).map fun ys => y :: ys

/-! ## SHA3-256 (Keccak), modelling `hashlib.sha3_256(...).hexdigest()`

Lanes are 64-bit words represented as `Nat` reduced modulo `2^64`;
the state is the flat list of 25 lanes, index `x + 5 * y`. -/

/-- Reduce a natural number modulo 2^64, modelling a 64-bit lane. -/
def w64 (x : Nat) : Nat := x % 18446744073709551616

/-- Rotate a 64-bit lane left by `n` bits. -/
def rotl64 (x n : Nat) : Nat :=
  w64 (x <<< (n % 64)) ||| (w64 x >>> (64 - n % 64))

/-- Lane `A[x, y]` of a Keccak state (flat index `x + 5 * y`). -/
def lane (s : List Nat) (x y : Nat) : Nat := s.getD (x % 5 + 5 * (y % 5)) 0

/-- Keccak θ step. -/
def keccakTheta (s : List Nat) : List Nat :=
  let c := fun x => lane s x 0 ^^^ lane s x 1 ^^^ lane s x 2 ^^^ lane s x 3 ^^^ lane s x 4
  (List.range 25).map fun i =>
    s.getD i 0 ^^^ c ((i % 5 + 4) % 5) ^^^ rotl64 (c ((i % 5 + 1) % 5)) 1

/-- Keccak ρ rotation offsets, indexed by `x + 5 * y`. -/
def rhoOffsets : List Nat :=
  [0, 1, 62, 28, 27] ++ [36, 44, 6, 55, 20] ++ [3, 10, 43, 25, 39] ++
    [41, 45, 15, 21, 8] ++ [18, 2, 61, 56, 14]

/-- Combined Keccak ρ and π steps: `B[y, 2x+3y] = rotl(A[x, y], r[x, y])`. -/
def keccakRhoPi (s : List Nat) : List Nat :=
  (List.range 25).map fun j =>
    let x := (j % 5 + 3 * (j / 5)) % 5
    let y := j % 5
    rotl64 (lane s x y) (rhoOffsets.getD (x + 5 * y) 0)

/-- Keccak χ step. -/
def keccakChi (s : List Nat) : List Nat :=
  (List.range 25).map fun j =>
    let x := j % 5
    let y := j / 5
    lane s x y ^^^ ((lane s (x + 1) y ^^^ 18446744073709551615) &&& lane s (x + 2) y)

/-- Keccak round constants for the ι step. -/
def keccakRC : List Nat :=
  [0x0000000000000001, 0x0000000000008082, 0x800000000000808a, 0x8000000080008000] ++
    [0x000000000000808b, 0x0000000080000001, 0x8000000080008081, 0x8000000000008009] ++
    [0x000000000000008a, 0x0000000000000088, 0x0000000080008009, 0x000000008000000a] ++
    [0x000000008000808b, 0x800000000000008b, 0x8000000000008089, 0x8000000000008003] ++
    [0x8000000000008002, 0x8000000000000080, 0x000000000000800a, 0x800000008000000a] ++
    [0x8000000080008081, 0x8000000000008080, 0x0000000080000001, 0x8000000080008008]

/-- One Keccak round: ι ∘ χ ∘ π ∘ ρ ∘ θ. -/
def keccakRound (s : List Nat) (rc : Nat) : List Nat :=
  match keccakChi (keccakRhoPi (keccakTheta s)) with
  | [] => []
  | a :: rest => (a ^^^ rc) :: rest

/-- The Keccak-f[1600] permutation (24 rounds). -/
def keccakF (s : List Nat) : List Nat := keccakRC.foldl keccakRound s

/-- Interpret a list of bytes as a little-endian 64-bit lane. -/
def bytesToLane (bs : List Nat) : Nat := bs.foldr (fun b acc => b + 256 * acc) 0

/-- The 8 little-endian bytes of a 64-bit lane. -/
def laneBytes (x : Nat) : List Nat := (List.range 8).map fun i => x / 256 ^ i % 256

/-- XOR a 136-byte rate block into the first 17 lanes of the state and permute. -/
def absorbBlock (s : List Nat) (block : List Nat) : List Nat :=
  keccakF ((List.range 25).map fun i =>
    s.getD i 0 ^^^ (if i < 17 then bytesToLane ((block.drop (8 * i)).take 8) else 0))

/-- SHA3 multi-rate padding for a message of the given length (rate 136 bytes). -/
def sha3Pad (len : Nat) : List Nat :=
  let padLen := 136 - len % 136
  if padLen = 1 then [0x86] else 0x06 :: (List.replicate (padLen - 2) 0 ++ [0x80])

/-- Split a byte list into blocks of 136 bytes (a padded message splits evenly). -/
def chunks136 (l : List Nat) : List (List Nat) :=
  if _h : l.length ≤ 136 then [l]
  else l.take 136 :: chunks136 (l.drop 136)
termination_by l.length
decreasing_by simp; omega

/-- SHA3-256 of a byte string: the list of its 32 digest bytes. -/
def sha3_256Bytes (msg : List Nat) : List Nat :=
  let padded := msg ++ sha3Pad msg.length
  let final := (chunks136 padded).foldl absorbBlock (List.replicate 25 0)
  (((List.range 4).map fun i => laneBytes (final.getD i 0))).flatten

/-- Two lowercase hex characters of a byte. -/
def byteHexPair (b : Nat) : List Char := [hexDig (b / 16 % 16), hexDig (b % 16)]

/-- Models `hashlib.sha3_256(msg).hexdigest()`: 64 lowercase hex characters.
Validated against the reference digests of `""`, `"abc"`, `"a"*36` and
`"x"*200`. -/
def sha3_256_hexdigest (msg : List Nat) : String :=
  ⟨((sha3_256Bytes msg).map byteHexPair).flatten⟩

/-! ## UTF-8, modelling `str.encode('utf8')` and the decoding in `json.loads` -/

/-- UTF-8 encoding of one character (arithmetic written with `/`, `%`). -/
def encodeChar (c : Char) : List Nat :=
  let n := c.toNat
  if n < 128 then [n]
  else if n < 2048 then [192 + n / 64, 128 + n % 64]
  else if n < 65536 then [224 + n / 4096, 128 + n / 64 % 64, 128 + n % 64]
  else [240 + n / 262144, 128 + n / 4096 % 64, 128 + n / 64 % 64, 128 + n % 64]

/-- Models `s.encode('utf8')`: the UTF-8 bytes of a string. -/
def utf8Encode (s : String) : List Nat := s.data.flatMap encodeChar

/-- One step of strict UTF-8 decoding, with a fuel bound (one unit per
decoded character; the wrapper supplies more than any input needs).
Truncated sequences, stray or missing continuation bytes, overlong forms and
surrogate code points are rejected, as Python byte decoding rejects them.
A missing byte is read as 256, which no continuation guard accepts. -/
def utf8DecodeAux : Nat → List Nat → Option (List Char)
  | 0, _ => none
  | _ + 1, [] => some []
  | fuel + 1, b :: bs =>
    if b < 128 then (utf8DecodeAux fuel bs).map fun cs => Char.ofNat b :: cs
    else if b < 192 then none
    else if b < 224 then
      if 128 ≤ bs.headD 256 ∧ bs.headD 256 < 192 then
        if (b - 192) * 64 + (bs.headD 256 - 128) < 128 then none
        else (utf8DecodeAux fuel (bs.drop 1)).map fun cs =>
          Char.ofNat ((b - 192) * 64 + (bs.headD 256 - 128)) :: cs
      else none
    else if b < 240 then
      if (128 ≤ bs.headD 256 ∧ bs.headD 256 < 192) ∧
          (128 ≤ (bs.drop 1).headD 256 ∧ (bs.drop 1).headD 256 < 192) then
        if (b - 224) * 4096 + (bs.headD 256 - 128) * 64 + ((bs.drop 1).headD 256 - 128) <
            2048 then none
        else if 55296 ≤ (b - 224) * 4096 + (bs.headD 256 - 128) * 64 +
            ((bs.drop 1).headD 256 - 128) ∧
            (b - 224) * 4096 + (bs.headD 256 - 128) * 64 + ((bs.drop 1).headD 256 - 128) <
              57344 then none
        else (utf8DecodeAux fuel (bs.drop 2)).map fun cs =>
          Char.ofNat ((b - 224) * 4096 + (bs.headD 256 - 128) * 64 +
            ((bs.drop 1).headD 256 - 128)) :: cs
      else none
    else if b < 248 then
      if (128 ≤ bs.headD 256 ∧ bs.headD 256 < 192) ∧
          (128 ≤ (bs.drop 1).headD 256 ∧ (bs.drop 1).headD 256 < 192) ∧
          (128 ≤ (bs.drop 2).headD 256 ∧ (bs.drop 2).headD 256 < 192) then
        if (b - 240) * 262144 + (bs.headD 256 - 128) * 4096 +
            ((bs.drop 1).headD 256 - 128) * 64 + ((bs.drop 2).headD 256 - 128) <
            65536 then none
        else if 1114111 < (b - 240) * 262144 + (bs.headD 256 - 128) * 4096 +
            ((bs.drop 1).headD 256 - 128) * 64 + ((bs.drop 2).headD 256 - 128) then none
        else (utf8DecodeAux fuel (bs.drop 3)).map fun cs =>
          Char.ofNat ((b - 240) * 262144 + (bs.headD 256 - 128) * 4096 +
            ((bs.drop 1).headD 256 - 128) * 64 + ((bs.drop 2).headD 256 - 128)) :: cs
      else none
    else none

/-- Strict UTF-8 decoding of a byte string (the decoding `json.loads`
applies to its input bytes). -/
def utf8Decode (l : List Nat) : Option (List Char) := utf8DecodeAux (l.length + 1) l

/-! ## JSON, modelling `json.dumps` (as used by pydantic `.json()`) and `json.loads`

The value tree `json.loads` produces.  Restrictions of the model, irrelevant
to any stored batch: numbers with a fraction or exponent (Python floats) and
lone-surrogate escapes are not represented, so the parsing model rejects them. -/

inductive JsonValue where
  | jnull : JsonValue
  | jbool : Bool → JsonValue
  | jnum : Int → JsonValue
  | jstr : String → JsonValue
  | jarr : List JsonValue → JsonValue
  | jobj : List (String × JsonValue) → JsonValue

/-- The escape `json.dumps` (with its default `ensure_ascii=True`) applies to
one character: printable ASCII other than quote and backslash is literal,
shorthand escapes for the common controls, `\uXXXX` otherwise, using a
surrogate pair beyond the basic plane. -/
def escapeChar (c : Char) : List Char :=
  if c = quoteChar then [backslashChar, quoteChar]
  else if c = backslashChar then [backslashChar, backslashChar]
  else if c.toNat = 8 then [backslashChar, Char.ofNat 98]
  else if c.toNat = 9 then [backslashChar, Char.ofNat 116]
  else if c.toNat = 10 then [backslashChar, Char.ofNat 110]
  else if c.toNat = 12 then [backslashChar, Char.ofNat 102]
  else if c.toNat = 13 then [backslashChar, Char.ofNat 114]
  else if 32 ≤ c.toNat ∧ c.toNat ≤ 126 then [c]
  else if c.toNat < 65536 then backslashChar :: Char.ofNat 117 :: hexPad 4 c.toNat
  else
    let n := c.toNat - 65536
    (backslashChar :: Char.ofNat 117 :: hexPad 4 (55296 + n / 1024)) ++
      (backslashChar :: Char.ofNat 117 :: hexPad 4 (56320 + n % 1024))

/-- JSON rendering of a string literal. -/
def renderString (s : String) : List Char :=
  quoteChar :: (s.data.flatMap escapeChar ++ [quoteChar])

mutual

/-- Models `json.dumps` with its default separators `', '` and `': '`. -/
def renderJson : JsonValue → List Char
  | .jnull => ("null").data
  | .jbool true => ("true").data
  | .jbool false => ("false").data
  | .jnum i => intChars i
  | .jstr s => renderString s
  | .jarr xs => lbrackChar :: (renderElems xs ++ [rbrackChar])
  | .jobj fs => lbraceChar :: (renderFields fs ++ [rbraceChar])

/-- Array elements joined by `', '`. -/
def renderElems : List JsonValue → List Char
  | [] => []
  | [x] => renderJson x
  | x :: y :: rest => renderJson x ++ (commaChar :: spaceChar :: renderElems (y :: rest))

/-- Object members `"key": value` joined by `', '`. -/
def renderFields : List (String × JsonValue) → List Char
  | [] => []
  | [(k, v)] => renderString k ++ (colonChar :: spaceChar :: renderJson v)
  | (k, v) :: f :: rest =>
    renderString k ++ (colonChar :: spaceChar :: renderJson v) ++
      (commaChar :: spaceChar :: renderFields (f :: rest))

end

/-- JSON whitespace. -/
def isJsonWs (c : Char) : Bool :=
  c = spaceChar || c.toNat = 9 || c.toNat = 10 || c.toNat = 13

/-- Skip JSON whitespace. -/
def skipWs (l : List Char) : List Char := l.dropWhile isJsonWs

/-- Value of one hexadecimal digit character (either case). -/
def parseHexDigit (c : Char) : Option Nat :=
  if 48 ≤ c.toNat ∧ c.toNat ≤ 57 then some (c.toNat - 48)
  else if 97 ≤ c.toNat ∧ c.toNat ≤ 102 then some (c.toNat - 87)
  else if 65 ≤ c.toNat ∧ c.toNat ≤ 70 then some (c.toNat - 55)
  else none

/-- Value of four hexadecimal digit characters, with the input after them. -/
def parseHex4 (l : List Char) : Option (Nat × List Char) :=
  match l with
  | h1 :: h2 :: h3 :: h4 :: rest =>
    match parseHexDigit h1, parseHexDigit h2, parseHexDigit h3, parseHexDigit h4 with
    | some a, some b, some c, some d => some (4096 * a + 256 * b + 16 * c + d, rest)
    | _, _, _, _ => none
  | _ => none

/-- The character a two-character shorthand escape denotes, if the letter
after the backslash is one of the eight JSON escape letters. -/
def escCode (e : Char) : Option Char :=
  if e = quoteChar then some quoteChar
  else if e = backslashChar then some backslashChar
  else if e = slashChar then some slashChar
  else if e = Char.ofNat 98 then some (Char.ofNat 8)
  else if e = Char.ofNat 102 then some (Char.ofNat 12)
  else if e = Char.ofNat 110 then some (Char.ofNat 10)
  else if e = Char.ofNat 114 then some (Char.ofNat 13)
  else if e = Char.ofNat 116 then some (Char.ofNat 9)
  else none

/-- Parse one JSON escape sequence after its backslash: a shorthand escape,
a `\uXXXX` scalar, or a `\uXXXX\uXXXX` surrogate pair (`json.loads` requires
surrogate halves to pair up). -/
def parseEsc (l : List Char) : Option (Char × List Char) :=
  match l with
  | [] => none
  | e :: rest2 =>
    if e = Char.ofNat 117 then
      (parseHex4 rest2).bind fun p =>
        if p.1 < 55296 ∨ 57344 ≤ p.1 then some (Char.ofNat p.1, p.2)
        else if p.1 < 56320 then
          if p.2.headD quoteChar = backslashChar ∧ (p.2.drop 1).headD quoteChar = Char.ofNat 117
          then
            (parseHex4 (p.2.drop 2)).bind fun q =>
              if 56320 ≤ q.1 ∧ q.1 < 57344 then
                some (Char.ofNat (65536 + (p.1 - 55296) * 1024 + (q.1 - 56320)), q.2)
              else none
          else none
        else none
    else (escCode e).map fun c => (c, rest2)

/-- Parse a JSON string body after the opening quote, returning the decoded
characters and the input after the closing quote.  Raw control characters
are rejected (`json.loads` strict mode).  The fuel only bounds the recursion
depth; every step consumes at least one character, so `length + 1` fuel
never runs out. -/
def parseStrBodyAux : Nat → List Char → Option (List Char × List Char)
  | 0, _ => none
  | _ + 1, [] => none
  | fuel + 1, c :: rest =>
    if c = quoteChar then some ([], rest)
    else if c = backslashChar then
      (parseEsc rest).bind fun d =>
        (parseStrBodyAux fuel d.2).map fun p => (d.1 :: p.1, p.2)
    else if c.toNat < 32 then none
    else (parseStrBodyAux fuel rest).map fun p => (c :: p.1, p.2)

/-- `parseStrBodyAux` with always-sufficient fuel. -/
def parseStrBody (l : List Char) : Option (List Char × List Char) :=
  parseStrBodyAux (l.length + 1) l

/-- Parse a JSON integer (sign and digits, leading zeros rejected as in JSON). -/
def parseNum (l : List Char) : Option (Int × List Char) :=
  match l with
  | c :: rest =>
    if c = minusChar then
      let ds := rest.takeWhile isDigitChar
      if ds = [] then none
      else if 1 < ds.length ∧ ds.headD quoteChar = Char.ofNat 48 then none
      else some (-(digitsVal ds : Int), rest.dropWhile isDigitChar)
    else
      let ds := l.takeWhile isDigitChar
      if ds = [] then none
      else if 1 < ds.length ∧ ds.headD quoteChar = Char.ofNat 48 then none
      else some ((digitsVal ds : Int), l.dropWhile isDigitChar)
  | [] => none

mutual

/-- Recursive-descent JSON value parsing with a fuel bound on nesting work
(the top level supplies more fuel than any input can consume). -/
def parseVal : Nat → List Char → Option (JsonValue × List Char)
  | 0, _ => none
  | _ + 1, [] => none
  | fuel + 1, c :: rest =>
    if c = quoteChar then (parseStrBody rest).map fun p => (.jstr ⟨p.1⟩, p.2)
    else if c = lbrackChar then
      if (skipWs rest).headD quoteChar = rbrackChar then some (.jarr [], (skipWs rest).tail)
      else (parseElems fuel (skipWs rest)).map fun p => (.jarr p.1, p.2)
    else if c = lbraceChar then
      if (skipWs rest).headD quoteChar = rbraceChar then some (.jobj [], (skipWs rest).tail)
      else (parseFields fuel (skipWs rest)).map fun p => (.jobj p.1, p.2)
    else if (c :: rest).take 4 = ("true").data then some (.jbool true, (c :: rest).drop 4)
    else if (c :: rest).take 5 = ("false").data then some (.jbool false, (c :: rest).drop 5)
    else if (c :: rest).take 4 = ("null").data then some (.jnull, (c :: rest).drop 4)
    else (parseNum (c :: rest)).map fun p => (.jnum p.1, p.2)

/-- Parse the elements of a non-empty JSON array up to the closing bracket.
(When the element parse leaves an empty remainder the lookahead default
`quoteChar` matches neither comma nor bracket, so the parse fails, exactly
as on a truncated document.) -/
def parseElems : Nat → List Char → Option (List JsonValue × List Char)
  | 0, _ => none
  | fuel + 1, l =>
    (parseVal fuel l).bind fun p =>
      if (skipWs p.2).headD quoteChar = commaChar then
        (parseElems fuel (skipWs (skipWs p.2).tail)).map fun q => (p.1 :: q.1, q.2)
      else if (skipWs p.2).headD quoteChar = rbrackChar then some ([p.1], (skipWs p.2).tail)
      else none

/-- Parse the members of a non-empty JSON object up to the closing brace. -/
def parseFields : Nat → List Char → Option (List (String × JsonValue) × List Char)
  | 0, _ => none
  | _ + 1, [] => none
  | fuel + 1, c :: rest =>
    if c = quoteChar then
      (parseStrBody rest).bind fun kp =>
        if (skipWs kp.2).headD quoteChar = colonChar then
          (parseVal fuel (skipWs (skipWs kp.2).tail)).bind fun vp =>
            if (skipWs vp.2).headD quoteChar = commaChar then
              (parseFields fuel (skipWs (skipWs vp.2).tail)).map fun q =>
                ((⟨kp.1⟩, vp.1) :: q.1, q.2)
            else if (skipWs vp.2).headD quoteChar = rbraceChar then
              some ([(⟨kp.1⟩, vp.1)], (skipWs vp.2).tail)
            else none
        else none
    else none

end

/-- Models `json.loads`: parse a complete JSON document, requiring the whole
input to be consumed. -/
def jsonParse (s : String) : Option JsonValue :=
  let l := skipWs s.data
  match parseVal (l.length + 1) l with
  | none => none
  | some (v, rest) => if skipWs rest = [] then some v else none

mutual

/-- Structural size of a JSON value, used as a fuel lower bound. -/
def jsize : JsonValue → Nat
  | .jnull => 1
  | .jbool _ => 1
  | .jnum _ => 1
  | .jstr _ => 1
  | .jarr xs => 1 + jsizeL xs
  | .jobj fs => 1 + jsizeF fs

/-- Structural size of a list of JSON values. -/
def jsizeL : List JsonValue → Nat
  | [] => 0
  | x :: xs => jsize x + jsizeL xs

/-- Structural size of a list of JSON object members. -/
def jsizeF : List (String × JsonValue) → Nat
  | [] => 0
  | (_, v) :: fs => jsize v + jsizeF fs

end

/-! ## gzip, modelling `gzip.compress` / `gzip.decompress`

The model produces a genuine gzip stream whose DEFLATE payload uses stored
(uncompressed) blocks, with the real CRC-32 and length trailer; decompression
parses exactly such streams.  Huffman-compressed payloads, nonzero header
flags and the time field are not modelled (the code never inspects them). -/

/-- One CRC-32 bit step (reflected polynomial 0xEDB88320). -/
def crcStep (c : Nat) : Nat := if c % 2 = 1 then (c / 2) ^^^ 0xEDB88320 else c / 2

/-- Eight CRC-32 bit steps. -/
def crc8 (c : Nat) : Nat :=
  crcStep (crcStep (crcStep (crcStep (crcStep (crcStep (crcStep (crcStep c)))))))

/-- Fold one byte into a CRC-32 accumulator. -/
def crc32Update (c b : Nat) : Nat := crc8 (c ^^^ b % 256)

/-- CRC-32 of a byte list. -/
def crc32 (data : List Nat) : Nat := (data.foldl crc32Update 4294967295) ^^^ 4294967295

/-- Two little-endian bytes of a 16-bit value. -/
def le16 (n : Nat) : List Nat := [n % 256, n / 256 % 256]

/-- Four little-endian bytes of a 32-bit value. -/
def le32 (n : Nat) : List Nat := [n % 256, n / 256 % 256, n / 65536 % 256, n / 16777216 % 256]

/-- DEFLATE stored blocks of a byte list (at most 65535 bytes per block). -/
def storedBlocks (data : List Nat) : List Nat :=
  if _h : data.length ≤ 65535 then
    1 :: (le16 data.length ++ (le16 (65535 - data.length) ++ data))
  else
    0 :: (le16 65535 ++ (le16 0 ++ data.take 65535)) ++ storedBlocks (data.drop 65535)
termination_by data.length
decreasing_by simp; omega

/-- Models `gzip.compress` (with time zero): gzip header, stored DEFLATE
blocks, CRC-32 and length trailer. -/
def gzipCompress (data : List Nat) : List Nat :=
  [31, 139, 8, 0, 0, 0, 0, 0, 0, 255] ++ storedBlocks data ++
    le32 (crc32 data) ++ le32 (data.length % 4294967296)

/-- Read exactly `n` bytes. -/
def readN (n : Nat) (l : List Nat) : Option (List Nat × List Nat) :=
  if n ≤ l.length then some (l.take n, l.drop n) else none

/-- Parse stored DEFLATE blocks until the final one. -/
def parseBlocks : Nat → List Nat → Option (List Nat × List Nat)
  | 0, _ => none
  | fuel + 1, l =>
    match l with
    | b :: n0 :: n1 :: m0 :: m1 :: l2 =>
      let len := n0 + 256 * n1
      let nlen := m0 + 256 * m1
      if len + nlen = 65535 then
        match readN len l2 with
        | some (chunk, rest) =>
          if b = 1 then some (chunk, rest)
          else if b = 0 then
            match parseBlocks fuel rest with
            | some (more, rest2) => some (chunk ++ more, rest2)
            | none => none
          else none
        | none => none
      else none
    | _ => none

/-- Models `gzip.decompress` on streams with stored DEFLATE blocks, verifying
the CRC-32 and length trailer. -/
def gzipDecompress (bytes : List Nat) : Option (List Nat) :=
  match bytes with
  | 31 :: 139 :: 8 :: 0 :: _ :: _ :: _ :: _ :: _ :: _ :: rest =>
    match parseBlocks (rest.length + 1) rest with
    | some (data, rest2) =>
      match rest2 with
      | [c0, c1, c2, c3, s0, s1, s2, s3] =>
        if c0 + 256 * c1 + 65536 * c2 + 16777216 * c3 = crc32 data ∧
            s0 + 256 * s1 + 65536 * s2 + 16777216 * s3 = data.length % 4294967296
        then some data else none
      | _ => none
    | none => none
  | _ => none

/-! ## Data model of `app.py` -/

/-- One crawled page record (`class Item`). -/
structure Item where
  timestamp : Int
  source : String
  url : String
  title : String
  extract : String
  links : List String
deriving DecidableEq, Repr

/-- An inbound batch (`class Batch`). -/
structure Batch where
  user_id : String
  items : List Item
deriving DecidableEq, Repr

/-- The stored batch (`class HashedBatch`).  The `timestamp` field is declared
`int` in the source, so pydantic coerces the float epoch time with `int()`. -/
structure HashedBatch where
  user_id_hash : String
  timestamp : Int
  items : List Item
deriving DecidableEq, Repr

/-- Models `datetime.now(timezone.utc)`: the UTC calendar date, the whole
seconds since UTC midnight (`timedelta.seconds`, always below 86400), and the
exact seconds since the Unix epoch (`total_seconds()`, fractional). -/
structure UTCTime where
  year : Nat
  month : Nat
  day : Nat
  secondsOfDay : Fin 86400
  epoch : ℚ
deriving DecidableEq

/-- Module constant `MAX_BATCH_SIZE`. -/
def MAX_BATCH_SIZE : Nat := 100

/-- Module constant `USER_ID_LENGTH`. -/
def USER_ID_LENGTH : Nat := 36

/-- Module constant `PUBLIC_USER_ID_LENGTH`. -/
def PUBLIC_USER_ID_LENGTH : Nat := 64

/-- Module constant `VERSION`. -/
def VERSION : String := "v1"

/-- Module constant `FILE_NAME_SUFFIX`. -/
def FILE_NAME_SUFFIX : String := ".json.gz"

/-- The bucket name is environment-supplied configuration; its value is
immaterial to every claim, so the model fixes a placeholder. -/
def BUCKET_NAME : String := "bucket"

/-- The public download URL base of the bucket (source constant built from
`BUCKET_NAME`). -/
def PUBLIC_URL_BASE : String := "https://f004.backblazeb2.com/file/" ++ BUCKET_NAME ++ "/"

/-- Python `int()` applied to an exact number: truncation toward zero
(the pydantic coercion a float receives at an `int` field).  On a reduced
rational this is exactly the truncating division of numerator by denominator. -/
def pyInt (q : ℚ) : Int := q.num.tdiv q.den

/-- Models `str(now.date())`: the ISO `YYYY-MM-DD` rendering of the date. -/
def dateIso (t : UTCTime) : String :=
  zfill 4 (natStr t.year) ++ "-" ++ zfill 2 (natStr t.month) ++ "-" ++ zfill 2 (natStr t.day)

/-- The blob store: an association of object keys to byte contents. -/
def Store : Type := List (String × List Nat)

/-- Overwriting put of one object (`bucket.put`). -/
def storePut (k : String) (v : List Nat) (s : Store) : Store :=
  (k, v) :: List.filter (fun p => p.1 ≠ k) s

/-- The keys present in the store. -/
def storeKeys (s : Store) : List String := List.map Prod.fst s

/-- Fetch one object by key. -/
def storeGet (s : Store) (k : String) : Option (List Nat) :=
  (List.find? (fun p => p.1 == k) s).map Prod.snd

/-- The process state: bucket contents and the `last_batch` global. -/
structure ServerState where
  store : Store
  last_batch : Option HashedBatch

/-- The state at process start: empty bucket view, `last_batch = None`. -/
def initState : ServerState := ⟨[], none⟩

/-- The failure modes a request can surface. -/
inductive ReqError where
  | httpError (status : Nat) (detail : String)
  | storeFailure
  | assertionFailure
  | fetchFailure
  | keyFailure
deriving DecidableEq, Repr

/-- Success payload of `create_batch`. -/
structure SubmitResponse where
  status : String
  public_user_id : String
deriving DecidableEq, Repr

/-- Line 74 of the source: `hashlib.sha3_256(batch.user_id.encode('utf8')).hexdigest()`. -/
def user_id_hash_of (user_id : String) : String := sha3_256_hexdigest (utf8Encode user_id)

/-- Lines 77-83: `str(seconds).zfill(5)` for the whole seconds since UTC midnight. -/
def padded_seconds_of (t : UTCTime) : String := zfill 5 (natStr t.secondsOfDay.val)

/-- Line 86: `str(uuid4())[:8]` — the first eight hex characters of the random
128-bit identifier, i.e. its top 32 bits rendered `%08x`. -/
def uuid4First8 (r : Nat) : String := ⟨hexPad 8 (r % 2 ^ 128 / 2 ^ 96)⟩

/-- The `{SSSSS}__{rand8}` part of the object key. -/
def batchIdOf (t : UTCTime) (r : Nat) : String :=
  padded_seconds_of t ++ "__" ++ uuid4First8 r

/-- Line 87: the object key `1/v1/{date}/1/{hash}/{SSSSS}__{rand8}.json.gz`. -/
def filenameOf (t : UTCTime) (pubId : String) (r : Nat) : String :=
  "1/" ++ VERSION ++ "/" ++ dateIso t ++ "/1/" ++ pubId ++ "/" ++ batchIdOf t r ++ FILE_NAME_SUFFIX

/-- Lines 90-91: the `HashedBatch` built from a batch at ingestion time. -/
def hashedBatchOf (b : Batch) (t : UTCTime) : HashedBatch :=
  ⟨user_id_hash_of b.user_id, pyInt t.epoch, b.items⟩

/-- The JSON tree pydantic serializes for an `Item` (declaration field order). -/
def itemJson (it : Item) : JsonValue :=
  .jobj [("timestamp", .jnum it.timestamp), ("source", .jstr it.source),
         ("url", .jstr it.url), ("title", .jstr it.title),
         ("extract", .jstr it.extract), ("links", .jarr (it.links.map .jstr))]

/-- The JSON tree pydantic serializes for a `HashedBatch`. -/
def hashedBatchJson (hb : HashedBatch) : JsonValue :=
  .jobj [("user_id_hash", .jstr hb.user_id_hash), ("timestamp", .jnum hb.timestamp),
         ("items", .jarr (hb.items.map itemJson))]

/-- Line 92: `hashed_batch.json()` — the serialized text of the batch. -/
def hashedBatchJsonStr (hb : HashedBatch) : String := ⟨renderJson (hashedBatchJson hb)⟩

/-- Lines 66-103, `create_batch` (`POST /batches/`): validation, hashing, key
construction, serialize + compress, store write, then cache update.  The
nondeterministic inputs (current time, random uuid bits, whether the S3 put
raises) are explicit parameters; an exception leaves the state untouched. -/
def create_batch (batch : Batch) (now : UTCTime) (rand : Nat) (storeFails : Bool)
    (st : ServerState) : Except ReqError (ServerState × SubmitResponse) :=
  if MAX_BATCH_SIZE < batch.items.length then
    .error (.httpError 400 ("Batch size too large (maximum " ++ natStr MAX_BATCH_SIZE ++
      "), got " ++ natStr batch.items.length))
  else if batch.user_id.length ≠ USER_ID_LENGTH then
    .error (.httpError 400 ("User ID length is incorrect, should be " ++
      natStr USER_ID_LENGTH ++ " characters"))
  else
    let user_id_hash := user_id_hash_of batch.user_id
    let filename := filenameOf now user_id_hash rand
    let hashed_batch := hashedBatchOf batch now
    let data := gzipCompress (utf8Encode (hashedBatchJsonStr hashed_batch))
    if storeFails then .error .storeFailure
    else .ok (⟨storePut filename data st.store, some hashed_batch⟩, ⟨"ok", user_id_hash⟩)

/-- The code point runs of the Unicode decimal-digit characters (general
category `Nd`) as inclusive `(first, last)` ranges, from the Unicode 14.0
database that CPython 3.11 ships: ASCII `0-9`, Arabic-Indic, Devanagari,
fullwidth, the mathematical alphanumeric digits, and so on. -/
def ndRanges : List (Nat × Nat) :=
  [(48, 57), (1632, 1641), (1776, 1785), (1984, 1993),
   (2406, 2415), (2534, 2543), (2662, 2671), (2790, 2799),
   (2918, 2927), (3046, 3055), (3174, 3183), (3302, 3311),
   (3430, 3439), (3558, 3567), (3664, 3673), (3792, 3801),
   (3872, 3881), (4160, 4169), (4240, 4249), (6112, 6121),
   (6160, 6169), (6470, 6479), (6608, 6617), (6784, 6793),
   (6800, 6809), (6992, 7001), (7088, 7097), (7232, 7241),
   (7248, 7257), (42528, 42537), (43216, 43225), (43264, 43273),
   (43472, 43481), (43504, 43513), (43600, 43609), (44016, 44025),
   (65296, 65305), (66720, 66729), (68912, 68921), (69734, 69743),
   (69872, 69881), (69942, 69951), (70096, 70105), (70384, 70393),
   (70736, 70745), (70864, 70873), (71248, 71257), (71360, 71369),
   (71472, 71481), (71904, 71913), (72016, 72025), (72784, 72793),
   (73040, 73049), (73120, 73129), (92768, 92777), (92864, 92873),
   (93008, 93017), (120782, 120831), (123200, 123209), (123632, 123641),
   (125264, 125273), (130032, 130041)]

/-- Models `\d` of a Python `str` regex: any Unicode decimal digit
(category `Nd`), not only ASCII `0-9` — `re` matches with
`Py_UNICODE_ISDECIMAL`.  The fullwidth digit `２`, for example, counts. -/
def isRegexDigit (c : Char) : Bool :=
  ndRanges.any fun r => r.1 ≤ c.toNat && c.toNat ≤ r.2

/-- Lines 152-157, `check_date_str`: `DATE_REGEX.match(date_str)` — the regex
`\d{4}-\d{2}-\d{2}` anchored at the start only (`re.match`), so only the
first ten characters are constrained, and `\d` admits every Unicode decimal
digit. -/
def dateRegexMatch (s : String) : Bool :=
  match s.data with
  | c1 :: c2 :: c3 :: c4 :: d1 :: c5 :: c6 :: d2 :: c7 :: c8 :: _ =>
    isRegexDigit c1 && isRegexDigit c2 && isRegexDigit c3 && isRegexDigit c4 &&
      d1 == minusChar && isRegexDigit c5 && isRegexDigit c6 && d2 == minusChar &&
      isRegexDigit c7 && isRegexDigit c8
  | _ => false

/-- Lines 155-157: raise 400 unless the date regex matches at the start. -/
def check_date_str (date_str : String) : Except ReqError Unit :=
  if dateRegexMatch date_str then .ok ()
  else .error (.httpError 400 "Incorrect date format, should be YYYY-MM-DD")

/-- Lines 113-115, `check_public_user_id`: raise 400 unless the id has the
public length 64. -/
def check_public_user_id (public_user_id : String) : Except ReqError Unit :=
  if public_user_id.length ≠ PUBLIC_USER_ID_LENGTH then
    .error (.httpError 400 ("Incorrect public user ID length, should be " ++
      natStr PUBLIC_USER_ID_LENGTH))
  else .ok ()

/-- Lines 133-135, `get_batch_id_from_file_name`: assert the `.json.gz`
suffix (a failed assertion aborts the request, modelled `none`) and drop it. -/
def get_batch_id_from_file_name (file_name : String) : Option String :=
  if pyEndsWith file_name FILE_NAME_SUFFIX then
    some (pyDropRight file_name FILE_NAME_SUFFIX.length)
  else none

/-- Lines 138-145, `get_batches_for_prefix`: list keys under the prefix, take
each key's segment after the last slash, sort, and strip the suffix from each. -/
def get_batches_for_prefix (pfx : String) (store : Store) : Except ReqError (List String) :=
  let file_names :=
    sortedStrings ((List.filter (fun k => strHasPfx pfx k) (storeKeys store)).map afterLastSlash)
  match mapOrNone get_batch_id_from_file_name file_names with
  | some ids => .ok ids
  | none => .error .assertionFailure

/-- Lines 106-111, `get_batches_for_date_and_user`
(`GET /batches/{date}/users/{public_user_id}`). -/
def get_batches_for_date_and_user (date_str public_user_id : String) (store : Store) :
    Except ReqError (List String) :=
  match check_date_str date_str with
  | .error e => .error e
  | .ok _ =>
    match check_public_user_id public_user_id with
    | .error e => .error e
    | .ok _ =>
      get_batches_for_prefix ("1/" ++ VERSION ++ "/" ++ date_str ++ "/1/" ++ public_user_id ++ "/")
        store

/-- The public bucket endpoint `requests.get` hits: it serves the stored
object whose key is the URL path under the public base, if any. -/
def urlContent (store : Store) (url : String) : Option (List Nat) :=
  if PUBLIC_URL_BASE.data.isPrefixOf url.data then
    storeGet store ⟨url.data.drop PUBLIC_URL_BASE.data.length⟩
  else none

/-- Lines 118-125, `get_batch_from_id`
(`GET /batches/{date}/users/{public_user_id}/batch/{batch_id}`): validate,
rebuild the public URL, download, decompress, parse.  A missing object or
malformed payload propagates as a fetch/decompress error. -/
def get_batch_from_id (date_str public_user_id batch_id : String) (store : Store) :
    Except ReqError JsonValue :=
  match check_date_str date_str with
  | .error e => .error e
  | .ok _ =>
    match check_public_user_id public_user_id with
    | .error e => .error e
    | .ok _ =>
      let url := PUBLIC_URL_BASE ++ "1/" ++ VERSION ++ "/" ++ date_str ++ "/1/" ++
        public_user_id ++ "/" ++ batch_id ++ FILE_NAME_SUFFIX
      match urlContent store url with
      | none => .error .fetchFailure
      | some content =>
        match gzipDecompress content with
        | none => .error .fetchFailure
        | some bytes =>
          match utf8Decode bytes with
          | none => .error .fetchFailure
          | some chars =>
            match jsonParse ⟨chars⟩ with
            | none => .error .fetchFailure
            | some v => .ok v

/-- Lines 128-130, `get_latest_batch` (`GET /latest-batch`). -/
def get_latest_batch (st : ServerState) : List HashedBatch :=
  match st.last_batch with
  | none => []
  | some b => [b]

/-- The `CommonPrefixes` an S3 delimiter listing returns: for every key under
the prefix with a further slash, the prefix extended to that slash;
deduplicated and in ascending key order. -/
def commonPrefixes (pfx : String) (keys : List String) : List String :=
  ((List.filter (fun k => strHasPfx pfx k) keys).filterMap fun k =>
    let rest := k.data.drop pfx.data.length
    if rest.contains slashChar then
      some ⟨pfx.data ++ (rest.takeWhile fun c => c ≠ slashChar) ++ [slashChar]⟩
    else none).dedup.mergeSort strLe

/-- Lines 160-168, `get_subfolders`: the listing's common prefixes with the
query prefix removed and slashes stripped.  boto3 omits the `CommonPrefixes`
response key when there are none, so the subscription raises (`keyFailure`). -/
def get_subfolders (pfx : String) (store : Store) : Except ReqError (List String) :=
  let cps := commonPrefixes pfx (storeKeys store)
  if cps = [] then .error .keyFailure
  else .ok (cps.map fun p => pyStripSlash ⟨p.data.drop pfx.data.length⟩)

/-- Lines 148-152, `get_user_id_hashes_for_date` (`GET /batches/{date}/users`). -/
def get_user_id_hashes_for_date (date_str : String) (store : Store) :
    Except ReqError (List String) :=
  match check_date_str date_str with
  | .error e => .error e
  | .ok _ => get_subfolders ("1/" ++ VERSION ++ "/" ++ date_str ++ "/1/") store

/-- One inbound HTTP request, with the nondeterministic inputs of a
submission made explicit. -/
inductive Request where
  | create (batch : Batch) (now : UTCTime) (rand : Nat) (storeFails : Bool)
  | batchesForDateUser (date_str public_user_id : String)
  | batchFromId (date_str public_user_id batch_id : String)
  | latest
  | usersForDate (date_str : String)
  | rootStatus

/-- The successful response payloads of the six endpoints. -/
inductive Response where
  | submitted (r : SubmitResponse)
  | batchIds (ids : List String)
  | batchData (v : JsonValue)
  | latestBatches (bs : List HashedBatch)
  | userIds (ids : List String)
  | statusOk

/-- One request-handler invocation: the new process state and the outcome.
Only a successful `create_batch` changes the state. -/
def handle (r : Request) (st : ServerState) : ServerState × Except ReqError Response :=
  match r with
  | .create b now rand fails =>
    match create_batch b now rand fails st with
    | .error e => (st, .error e)
    | .ok (st2, resp) => (st2, .ok (.submitted resp))
  | .batchesForDateUser d p => (st, (get_batches_for_date_and_user d p st.store).map .batchIds)
  | .batchFromId d p bid => (st, (get_batch_from_id d p bid st.store).map .batchData)
  | .latest => (st, .ok (.latestBatches (get_latest_batch st)))
  | .usersForDate d => (st, (get_user_id_hashes_for_date d st.store).map .userIds)
  | .rootStatus => (st, .ok .statusOk)

/-- Run a sequence of requests from a state. -/
def runReqs (rs : List Request) (st : ServerState) : ServerState :=
  rs.foldl (fun s r => (handle r s).1) st

/-- Look up an object member (first occurrence). -/
def jsonField (fs : List (String × JsonValue)) (k : String) : Option JsonValue :=
  (List.find? (fun p => p.1 == k) fs).map Prod.snd

/-- Read an `Item` back out of its JSON object shape
(`{timestamp:int, source, url, title, extract, links}`). -/
def itemOfJson (v : JsonValue) : Option Item :=
  match v with
  | .jobj fs =>
    match jsonField fs "timestamp", jsonField fs "source", jsonField fs "url",
        jsonField fs "title", jsonField fs "extract", jsonField fs "links" with
    | some (.jnum ts), some (.jstr src), some (.jstr u), some (.jstr ti),
        some (.jstr ex), some (.jarr ls) =>
      match mapOrNone (fun x => match x with | .jstr s => some s | _ => none) ls with
      | some links => some ⟨ts, src, u, ti, ex, links⟩
      | none => none
    | _, _, _, _, _, _ => none
  | _ => none

/-- Read the item sequence out of a returned batch JSON document. -/
def itemsOfJson (v : JsonValue) : Option (List Item) :=
  match v with
  | .jobj fs =>
    match jsonField fs "items" with
    | some (.jarr xs) => mapOrNone itemOfJson xs
    | _ => none
  | _ => none

/-- The spec phrase a date string must satisfy in claim C5, read literally:
the whole string has the shape `YYYY-MM-DD` (`\d{4}-\d{2}-\d{2}` matching the
entire string, not merely a leading portion of it). -/
def specDateFormatFull (s : String) : Bool :=
  dateRegexMatch s && s.length = 10

/-- Whether a request is a submission (`POST /batches/`). -/
def isCreate : Request → Bool
  | .create _ _ _ _ => true
  | _ => false

/-- The batch identifiers named by the spec for a listing: each object key
under the prefix with the directory prefix and the `.json.gz` suffix
stripped. -/
def idsUnderPfx (pfx : String) (store : Store) : List String :=
  (List.filter (fun k => strHasPfx pfx k) (storeKeys store)).map fun k =>
    pyDropRight ⟨k.data.drop pfx.data.length⟩ 8

/-- The sixteen lowercase hexadecimal characters. -/
def hexCharList : List Char := ("0123456789abcdef").data

/-- A 36-character identifier used in concrete instantiations. -/
def exUserId : String := ⟨List.replicate 36 (Char.ofNat 97)⟩

/-- A 64-character public identifier used in concrete instantiations. -/
def exPubId : String := ⟨List.replicate 64 (Char.ofNat 97)⟩

/-- A concrete item used in concrete instantiations. -/
def exItem : Item := ⟨1000, "s", "http://x", "t", "e", ["http://y"]⟩

/-- A concrete valid batch used in concrete instantiations. -/
def exBatch : Batch := ⟨exUserId, [exItem]⟩

/-- A concrete ingestion instant whose epoch seconds value is not an
integer (half a second past the whole second). -/
def exNow : UTCTime := ⟨2024, 3, 7, ⟨3723, by decide⟩, mkRat 3419561047 2⟩

/-- A second concrete ingestion instant. -/
def exNow2 : UTCTime := ⟨2024, 3, 8, ⟨7, by decide⟩, mkRat 1709859607 1⟩

/-- A concrete second valid batch. -/
def exBatch2 : Batch := ⟨⟨List.replicate 36 (Char.ofNat 98)⟩, []⟩

/-- A concrete oversized batch (101 items). -/
def exBigBatch : Batch := ⟨exUserId, List.replicate 101 exItem⟩

/-! # Theorems

Shared lemmas first, then one theorem per claim (with its witness or
counterexample). -/

/-! ## Inversion of `create_batch` -/

theorem create_batch_ok_inv {b : Batch} {now : UTCTime} {rand : Nat} {fails : Bool}
    {st st2 : ServerState} {resp : SubmitResponse}
    (h : create_batch b now rand fails st = .ok (st2, resp)) :
    b.items.length ≤ MAX_BATCH_SIZE ∧ b.user_id.length = USER_ID_LENGTH ∧ fails = false ∧
    st2 = ⟨storePut (filenameOf now (user_id_hash_of b.user_id) rand)
        (gzipCompress (utf8Encode (hashedBatchJsonStr (hashedBatchOf b now)))) st.store,
      some (hashedBatchOf b now)⟩ ∧
    resp = ⟨"ok", user_id_hash_of b.user_id⟩ := by
  unfold create_batch at h
  split_ifs at h with h1 h2 h3
  all_goals cases h
  exact ⟨by omega, by omega, by simpa using h3, rfl, rfl⟩

theorem create_batch_ok_of_valid (b : Batch) (now : UTCTime) (rand : Nat) (st : ServerState)
    (h1 : b.items.length ≤ MAX_BATCH_SIZE) (h2 : b.user_id.length = USER_ID_LENGTH) :
    create_batch b now rand false st =
      .ok (⟨storePut (filenameOf now (user_id_hash_of b.user_id) rand)
          (gzipCompress (utf8Encode (hashedBatchJsonStr (hashedBatchOf b now)))) st.store,
        some (hashedBatchOf b now)⟩, ⟨"ok", user_id_hash_of b.user_id⟩) := by
  unfold create_batch
  rw [if_neg (by omega), if_neg (by omega)]
  rfl

/-! ## Claim C2 -/

theorem create_batch_fails_of_storeFails (b : Batch) (now : UTCTime) (rand : Nat)
    (st : ServerState) (h1 : b.items.length ≤ MAX_BATCH_SIZE)
    (h2 : b.user_id.length = USER_ID_LENGTH) :
    create_batch b now rand true st = .error .storeFailure := by
  unfold create_batch
  rw [if_neg (by omega), if_neg (by omega)]
  rfl

/-- Claim C2: every batch with more than 100 items, and every batch whose
user id length is not exactly 36, is rejected by `submit` with a client
validation error (HTTP 400); no store write and no last-batch update happen:
the state is returned unchanged. -/
theorem submit_invalid_rejected (b : Batch) (now : UTCTime) (rand : Nat) (fails : Bool)
    (st : ServerState)
    (h : MAX_BATCH_SIZE < b.items.length ∨ b.user_id.length ≠ USER_ID_LENGTH) :
    (handle (.create b now rand fails) st).1 = st ∧
    ∃ msg, (handle (.create b now rand fails) st).2 = .error (.httpError 400 msg) := by
  have herr : ∃ msg, create_batch b now rand fails st = .error (.httpError 400 msg) := by
    unfold create_batch
    by_cases h1 : MAX_BATCH_SIZE < b.items.length
    · exact ⟨_, by rw [if_pos h1]⟩
    · have h2 : b.user_id.length ≠ USER_ID_LENGTH := by tauto
      exact ⟨_, by rw [if_neg h1, if_pos h2]⟩
  obtain ⟨msg, hmsg⟩ := herr
  exact ⟨by simp [handle, hmsg], ⟨msg, by simp [handle, hmsg]⟩⟩

/-- Witness for C2: a 101-item batch is rejected and the state is unchanged. -/
theorem submit_invalid_rejected_w :
    (MAX_BATCH_SIZE < exBigBatch.items.length ∨ exBigBatch.user_id.length ≠ USER_ID_LENGTH) ∧
    ((handle (.create exBigBatch exNow 0 false) initState).1 = initState ∧
      ∃ msg, (handle (.create exBigBatch exNow 0 false) initState).2 =
        .error (.httpError 400 msg)) :=
  ⟨Or.inl (by decide),
    submit_invalid_rejected exBigBatch exNow 0 false initState (Or.inl (by decide))⟩

/-! ## Claim C7 -/

/-- Claim C7: the store write happens strictly before the last-batch update.
With valid inputs but a store write that raises, the error propagates as a
server error (`storeFailure`, not an HTTP 400) and the state — in particular
the last-batch slot — keeps its previous value. -/
theorem store_error_leaves_cache (b : Batch) (now : UTCTime) (rand : Nat) (st : ServerState)
    (h1 : b.items.length ≤ MAX_BATCH_SIZE) (h2 : b.user_id.length = USER_ID_LENGTH) :
    (handle (.create b now rand true) st).1 = st ∧
    (handle (.create b now rand true) st).2 = .error .storeFailure ∧
    (handle (.create b now rand true) st).1.last_batch = st.last_batch := by
  have herr := create_batch_fails_of_storeFails b now rand st h1 h2
  exact ⟨by simp [handle, herr], by simp [handle, herr], by simp [handle, herr]⟩

/-- Witness for C7 at a concrete valid batch. -/
theorem store_error_leaves_cache_w :
    exBatch.items.length ≤ MAX_BATCH_SIZE ∧ exBatch.user_id.length = USER_ID_LENGTH ∧
    ((handle (.create exBatch exNow 0 true) initState).1 = initState ∧
      (handle (.create exBatch exNow 0 true) initState).2 = .error .storeFailure ∧
      (handle (.create exBatch exNow 0 true) initState).1.last_batch = initState.last_batch) :=
  ⟨by decide, by decide,
    store_error_leaves_cache exBatch exNow 0 initState (by decide) (by decide)⟩

/-! ## Claim C8 -/

theorem runReqs_append (xs ys : List Request) (st : ServerState) :
    runReqs (xs ++ ys) st = runReqs ys (runReqs xs st) := by
  unfold runReqs
  apply List.foldl_append

/-- Claim C8: the last-batch slot holds at most one value; `get_latest_batch`
is empty at process start; no request other than a successful submission
changes the state (in particular the slot); and after a sequence of valid
submissions the slot holds exactly the most recent `HashedBatch`. -/
theorem latest_batch_slot :
    get_latest_batch initState = [] ∧
    (∀ r st, isCreate r = false → (handle r st).1 = st) ∧
    (∀ b now rand fails st e, create_batch b now rand fails st = .error e →
      (handle (.create b now rand fails) st).1 = st) ∧
    (∀ (subs : List (Batch × UTCTime × Nat)) (q : Batch × UTCTime × Nat) (st : ServerState),
      (∀ p ∈ subs ++ [q],
        p.1.items.length ≤ MAX_BATCH_SIZE ∧ p.1.user_id.length = USER_ID_LENGTH) →
      get_latest_batch
          (runReqs ((subs ++ [q]).map fun p => .create p.1 p.2.1 p.2.2 false) st) =
        [hashedBatchOf q.1 q.2.1]) := by
  refine ⟨rfl, ?_, ?_, ?_⟩
  · intro r st h
    cases r
    · simp [isCreate] at h
    all_goals rfl
  · intro b now rand fails st e he
    simp [handle, he]
  · intro subs q st hval
    have hq := hval q (by simp)
    rw [List.map_append, runReqs_append]
    generalize runReqs (List.map (fun p => Request.create p.1 p.2.1 p.2.2 false) subs) st = S
    have hok := create_batch_ok_of_valid q.1 q.2.1 q.2.2 S hq.1 hq.2
    simp [runReqs, handle, hok, get_latest_batch]

/-- Witness for C8: two sequential valid submissions leave the second batch
in the slot. -/
theorem latest_batch_slot_w :
    (∀ p ∈ ([(exBatch, exNow, 0), (exBatch2, exNow2, 5)] : List (Batch × UTCTime × Nat)),
      p.1.items.length ≤ MAX_BATCH_SIZE ∧ p.1.user_id.length = USER_ID_LENGTH) ∧
    get_latest_batch
        (runReqs ((([(exBatch, exNow, 0)] ++ [(exBatch2, exNow2, 5)]) :
            List (Batch × UTCTime × Nat)).map
          fun p => .create p.1 p.2.1 p.2.2 false) initState) =
      [hashedBatchOf exBatch2 exNow2] :=
  ⟨by decide,
    latest_batch_slot.2.2.2 [(exBatch, exNow, 0)] (exBatch2, exNow2, 5) initState (by decide)⟩

/-! ## Characters, digits, `zfill` and hexadecimal renderings -/

theorem charOfNat_toNat {n : Nat} (h : n < 55296) : (Char.ofNat n).toNat = n := by
  have hv : n.isValidChar := Or.inl h
  have h32 : n < 4294967296 := by omega
  simp [Char.ofNat, Char.toNat, Char.ofNatAux, hv, Nat.toUInt32, UInt32.ofNat, UInt32.toNat,
    BitVec.toNat_ofNat, Nat.mod_eq_of_lt h32]

theorem hexDig_toNat_of_lt {d : Nat} (h : d < 10) : (hexDig d).toNat = 48 + d := by
  unfold hexDig
  rw [if_pos h]
  exact charOfNat_toNat (by omega)

theorem hexDig_isDigit {d : Nat} (h : d < 10) : isDigitChar (hexDig d) = true := by
  simp [isDigitChar, hexDig_toNat_of_lt h]
  omega

theorem natChars_ne_nil (n : Nat) : natChars n ≠ [] := by
  unfold natChars
  split
  · simp
  · simp

theorem natChars_all_digits (n : Nat) : ∀ c ∈ natChars n, isDigitChar c = true := by
  induction n using Nat.strong_induction_on with
  | _ n ih =>
    unfold natChars
    split
    · intro c hc
      simp at hc
      subst hc
      exact hexDig_isDigit (by omega)
    · intro c hc
      simp at hc
      rcases hc with hc | hc
      · exact ih (n / 10) (Nat.div_lt_self (by omega) (by omega)) c hc
      · subst hc
        exact hexDig_isDigit (by omega)

theorem natChars_length_le {k n : Nat} (hk : 0 < k) (h : n < 10 ^ k) :
    (natChars n).length ≤ k := by
  induction k generalizing n with
  | zero => omega
  | succ k ih =>
    unfold natChars
    split
    · simp
    · rename_i hn
      rcases Nat.eq_zero_or_pos k with hk0 | hk0
      · subst hk0
        simp at h
        omega
      · have hdiv : n / 10 < 10 ^ k := by
          rw [pow_succ] at h
          exact Nat.div_lt_of_lt_mul (by omega)
        have := ih hk0 hdiv
        simp
        omega

theorem digitsVal_append (l1 l2 : List Char) :
    digitsVal (l1 ++ l2) = l2.foldl (fun a c => 10 * a + (c.toNat - 48)) (digitsVal l1) := by
  unfold digitsVal
  apply List.foldl_append

theorem digitsVal_natChars (n : Nat) : digitsVal (natChars n) = n := by
  induction n using Nat.strong_induction_on with
  | _ n ih =>
    unfold natChars
    split
    · rename_i hn
      simp [digitsVal, hexDig_toNat_of_lt hn]
    · rename_i hn
      rw [digitsVal_append, ih (n / 10) (Nat.div_lt_self (by omega) (by omega))]
      simp [hexDig_toNat_of_lt (Nat.mod_lt n (by omega))]
      omega

theorem strLength_mk (l : List Char) : (⟨l⟩ : String).length = l.length := rfl

theorem zfill_data (w : Nat) (s : String) :
    (zfill w s).data = List.replicate (w - s.length) (Char.ofNat 48) ++ s.data := by
  unfold zfill
  split
  · rename_i hw
    rw [Nat.sub_eq_zero_of_le hw]
    simp
  · rfl

theorem zfill_length (w : Nat) (s : String) : (zfill w s).length = max w s.length := by
  have := zfill_data w s
  have hlen : (zfill w s).length = (zfill w s).data.length := rfl
  rw [hlen, this]
  rw [List.length_append, List.length_replicate]
  have hs : s.length = s.data.length := rfl
  omega

theorem foldl_replicate_zero (k : Nat) :
    List.foldl (fun a c => 10 * a + (c.toNat - 48)) 0
      (List.replicate k (Char.ofNat 48)) = 0 := by
  induction k with
  | zero => rfl
  | succ k ih =>
    rw [List.replicate_succ, List.foldl_cons]
    have h48 : (Char.ofNat 48).toNat = 48 := charOfNat_toNat (by omega)
    simpa [h48] using ih

theorem digitsVal_zfill (w : Nat) (s : String) :
    digitsVal (zfill w s).data = digitsVal s.data := by
  rw [zfill_data]
  unfold digitsVal
  rw [List.foldl_append]
  rw [show List.foldl (fun a c => 10 * a + (c.toNat - 48)) 0
      (List.replicate (w - s.length) (Char.ofNat 48)) = 0 from foldl_replicate_zero _]

theorem zfill_all_digits (w : Nat) (s : String) (h : ∀ c ∈ s.data, isDigitChar c = true) :
    ∀ c ∈ (zfill w s).data, isDigitChar c = true := by
  rw [zfill_data]
  intro c hc
  rcases List.mem_append.1 hc with hc | hc
  · have := List.eq_of_mem_replicate hc
    subst this
    have h48 : (Char.ofNat 48).toNat = 48 := charOfNat_toNat (by omega)
    simp [isDigitChar, h48]
  · exact h c hc

/-! ## The padded seconds field and the random discriminator -/

theorem padded_seconds_length (t : UTCTime) : (padded_seconds_of t).length = 5 := by
  unfold padded_seconds_of
  rw [zfill_length]
  have h5 : (natStr t.secondsOfDay.val).length ≤ 5 := by
    have := @natChars_length_le 5 t.secondsOfDay.val (by omega)
      (by have := t.secondsOfDay.isLt; norm_num; omega)
    simpa [natStr, strLength_mk] using this
  omega

theorem padded_seconds_val (t : UTCTime) :
    digitsVal (padded_seconds_of t).data = t.secondsOfDay.val := by
  unfold padded_seconds_of
  rw [digitsVal_zfill]
  exact digitsVal_natChars t.secondsOfDay.val

theorem padded_seconds_digits (t : UTCTime) :
    ∀ c ∈ (padded_seconds_of t).data, isDigitChar c = true := by
  unfold padded_seconds_of
  exact zfill_all_digits 5 _ (natChars_all_digits _)

theorem hexPad_length (k n : Nat) : (hexPad k n).length = k := by
  simp [hexPad]

theorem uuid4First8_length (r : Nat) : (uuid4First8 r).length = 8 := by
  unfold uuid4First8
  rw [strLength_mk]
  exact hexPad_length 8 _

theorem hexDig_mod_mem (d : Nat) : hexDig (d % 16) ∈ hexCharList := by
  have h : ∀ f : Fin 16, hexDig f.val ∈ hexCharList := by decide
  exact h ⟨d % 16, Nat.mod_lt d (by omega)⟩

theorem hexPad_mem (k n : Nat) : ∀ c ∈ hexPad k n, c ∈ hexCharList := by
  intro c hc
  simp only [hexPad, List.mem_map] at hc
  obtain ⟨i, _, rfl⟩ := hc
  exact hexDig_mod_mem _

/-! ## The date rendering and the object key (claim C3) -/

theorem exists_two {l : List Char} (h : l.length = 2) : ∃ a b, l = [a, b] := by
  rcases l with _ | ⟨a, l⟩
  · simp at h
  rcases l with _ | ⟨b, l⟩
  · simp at h
  rcases l with _ | ⟨c, l⟩
  · exact ⟨a, b, rfl⟩
  · simp at h

theorem exists_four {l : List Char} (h : l.length = 4) : ∃ a b c d, l = [a, b, c, d] := by
  rcases l with _ | ⟨a, l⟩
  · simp at h
  rcases l with _ | ⟨b, l⟩
  · simp at h
  have h2 : l.length = 2 := by simpa using h
  obtain ⟨c, d, rfl⟩ := exists_two h2
  exact ⟨a, b, c, d, rfl⟩

theorem isRegexDigit_of_isDigitChar {c : Char} (h : isDigitChar c = true) :
    isRegexDigit c = true := by
  unfold isRegexDigit
  rw [List.any_eq_true]
  refine ⟨(48, 57), by decide, ?_⟩
  exact h

theorem dateRegexMatch_of_shape (l1 l2 l3 rest : List Char)
    (h1 : l1.length = 4) (h2 : l2.length = 2) (h3 : l3.length = 2)
    (d1 : ∀ c ∈ l1, isDigitChar c = true) (d2 : ∀ c ∈ l2, isDigitChar c = true)
    (d3 : ∀ c ∈ l3, isDigitChar c = true) :
    dateRegexMatch ⟨l1 ++ minusChar :: (l2 ++ minusChar :: (l3 ++ rest))⟩ = true := by
  obtain ⟨a, b, c, d, rfl⟩ := exists_four h1
  obtain ⟨e, f, rfl⟩ := exists_two h2
  obtain ⟨g, k, rfl⟩ := exists_two h3
  simp only [dateRegexMatch, List.cons_append, List.nil_append]
  simp [isRegexDigit_of_isDigitChar (d1 a (by simp)),
    isRegexDigit_of_isDigitChar (d1 b (by simp)),
    isRegexDigit_of_isDigitChar (d1 c (by simp)),
    isRegexDigit_of_isDigitChar (d1 d (by simp)),
    isRegexDigit_of_isDigitChar (d2 e (by simp)),
    isRegexDigit_of_isDigitChar (d2 f (by simp)),
    isRegexDigit_of_isDigitChar (d3 g (by simp)),
    isRegexDigit_of_isDigitChar (d3 k (by simp))]

theorem dateIso_data (t : UTCTime) :
    (dateIso t).data =
      (zfill 4 (natStr t.year)).data ++ minusChar ::
        ((zfill 2 (natStr t.month)).data ++ minusChar ::
          ((zfill 2 (natStr t.day)).data ++ [])) := by
  unfold dateIso
  simp [String.data_append]
  rfl

theorem zfill_natStr_length {w n : Nat} (hw : 0 < w) (h : n < 10 ^ w) :
    (zfill w (natStr n)).data.length = w := by
  have h1 : (zfill w (natStr n)).length = max w (natStr n).length := zfill_length w _
  have h2 : (natStr n).length ≤ w := by
    have := natChars_length_le hw h
    simpa [natStr, strLength_mk] using this
  have h3 : (zfill w (natStr n)).length = (zfill w (natStr n)).data.length := rfl
  omega

theorem dateIso_format (t : UTCTime) (hy : t.year ≤ 9999) (hm : t.month ≤ 99)
    (hd : t.day ≤ 99) : specDateFormatFull (dateIso t) = true := by
  have hy4 : (zfill 4 (natStr t.year)).data.length = 4 :=
    zfill_natStr_length (by omega) (by omega)
  have hm2 : (zfill 2 (natStr t.month)).data.length = 2 :=
    zfill_natStr_length (by omega) (by omega)
  have hd2 : (zfill 2 (natStr t.day)).data.length = 2 :=
    zfill_natStr_length (by omega) (by omega)
  have hmatch : dateRegexMatch (dateIso t) = true := by
    have := dateRegexMatch_of_shape (zfill 4 (natStr t.year)).data
      (zfill 2 (natStr t.month)).data (zfill 2 (natStr t.day)).data []
      hy4 hm2 hd2
      (zfill_all_digits 4 _ (natChars_all_digits _))
      (zfill_all_digits 2 _ (natChars_all_digits _))
      (zfill_all_digits 2 _ (natChars_all_digits _))
    rw [show dateIso t = ⟨(dateIso t).data⟩ from rfl, dateIso_data t]
    exact this
  have hlen : (dateIso t).length = 10 := by
    have : (dateIso t).length = (dateIso t).data.length := rfl
    rw [this, dateIso_data t]
    simp [hy4, hm2, hd2]
  simp [specDateFormatFull, hmatch, hlen]

/-- Claim C3: the object key built by a successful submission has exactly the
form `1/v1/{YYYY-MM-DD}/1/{public_id}/{SSSSS}__{rand8}.json.gz`: the date part
is the `YYYY-MM-DD` rendering of the ingestion date, the seconds field has
exactly five digits whose value is the seconds since UTC midnight (at most
86399, so it cannot overflow five digits), and the discriminator is the
8-character prefix of the random 128-bit identifier's hex form.  The date
bounds are the `datetime` invariants. -/
theorem submit_key_format (b : Batch) (now : UTCTime) (rand : Nat) (st st2 : ServerState)
    (resp : SubmitResponse) (hy : now.year ≤ 9999) (hm : now.month ≤ 12) (hd : now.day ≤ 31)
    (h : create_batch b now rand false st = .ok (st2, resp)) :
    st2.store = storePut (filenameOf now (user_id_hash_of b.user_id) rand)
      (gzipCompress (utf8Encode (hashedBatchJsonStr (hashedBatchOf b now)))) st.store ∧
    filenameOf now (user_id_hash_of b.user_id) rand =
      "1/v1/" ++ dateIso now ++ "/1/" ++ user_id_hash_of b.user_id ++ "/" ++
        padded_seconds_of now ++ "__" ++ uuid4First8 rand ++ ".json.gz" ∧
    specDateFormatFull (dateIso now) = true ∧
    (padded_seconds_of now).length = 5 ∧
    digitsVal (padded_seconds_of now).data = now.secondsOfDay.val ∧
    now.secondsOfDay.val ≤ 86399 ∧
    (uuid4First8 rand).length = 8 ∧
    uuid4First8 rand = ⟨hexPad 8 (rand % 2 ^ 128 / 2 ^ 96)⟩ := by
  obtain ⟨-, -, -, hst2, -⟩ := create_batch_ok_inv h
  refine ⟨by rw [hst2], ?_, dateIso_format now hy (by omega) (by omega),
    padded_seconds_length now, padded_seconds_val now,
    by have := now.secondsOfDay.isLt; omega, uuid4First8_length rand, rfl⟩
  apply String.ext
  simp [filenameOf, batchIdOf, VERSION, FILE_NAME_SUFFIX, String.data_append]

/-- Witness for C3 at a concrete submission. -/
theorem submit_key_format_w :
    exNow.year ≤ 9999 ∧ exNow.month ≤ 12 ∧ exNow.day ≤ 31 ∧
    (create_batch exBatch exNow 77 false initState =
      .ok (⟨storePut (filenameOf exNow (user_id_hash_of exBatch.user_id) 77)
          (gzipCompress (utf8Encode (hashedBatchJsonStr (hashedBatchOf exBatch exNow))))
          initState.store,
        some (hashedBatchOf exBatch exNow)⟩, ⟨"ok", user_id_hash_of exBatch.user_id⟩)) ∧
    (filenameOf exNow (user_id_hash_of exBatch.user_id) 77 =
      "1/v1/" ++ dateIso exNow ++ "/1/" ++ user_id_hash_of exBatch.user_id ++ "/" ++
        padded_seconds_of exNow ++ "__" ++ uuid4First8 77 ++ ".json.gz" ∧
      specDateFormatFull (dateIso exNow) = true ∧
      (padded_seconds_of exNow).length = 5 ∧
      digitsVal (padded_seconds_of exNow).data = exNow.secondsOfDay.val ∧
      exNow.secondsOfDay.val ≤ 86399 ∧
      (uuid4First8 77).length = 8 ∧
      uuid4First8 77 = ⟨hexPad 8 (77 % 2 ^ 128 / 2 ^ 96)⟩) := by
  have hok := create_batch_ok_of_valid exBatch exNow 77 initState (by decide) (by decide)
  have := submit_key_format exBatch exNow 77 initState _ _ (by decide) (by decide) (by decide) hok
  exact ⟨by decide, by decide, by decide, hok, this.2⟩

/-! ## Claim C5 (corrected): date validation matches a leading pattern only -/

/-- Counterexample to C5 as stated: the string `2024-01-01x` is not of the
form `YYYY-MM-DD`, yet the date-taking read operation accepts it (the empty
listing succeeds with an empty result instead of failing with HTTP 400),
because `re.match` anchors the regex at the start only. -/
theorem date_check_cex :
    specDateFormatFull "2024-01-01x" = false ∧
    get_batches_for_date_and_user "2024-01-01x" exPubId [] = .ok [] := by
  refine ⟨by decide, ?_⟩
  unfold get_batches_for_date_and_user
  rw [show check_date_str "2024-01-01x" = .ok () from rfl]
  rw [show check_public_user_id exPubId = .ok () from rfl]
  unfold get_batches_for_prefix
  simp [storeKeys, sortedStrings, mapOrNone]

/-- Claim C5 as amended: each of the three date-taking read operations fails
with HTTP 400 exactly when the regex `\d{4}-\d{2}-\d{2}` fails to match at
the start of the string; equivalently, `check_date_str` accepts exactly the
strings whose first ten characters have the shape `dddd-dd-dd`, where `d` is
any Unicode decimal digit, not only ASCII `0-9` (trailing characters are
unchecked). -/
theorem date_check_anchored (s pid bid : String) (store : Store) :
    (dateRegexMatch s = false →
      get_batches_for_date_and_user s pid store =
        .error (.httpError 400 "Incorrect date format, should be YYYY-MM-DD") ∧
      get_batch_from_id s pid bid store =
        .error (.httpError 400 "Incorrect date format, should be YYYY-MM-DD") ∧
      get_user_id_hashes_for_date s store =
        .error (.httpError 400 "Incorrect date format, should be YYYY-MM-DD")) ∧
    (check_date_str s = .ok () ↔ dateRegexMatch s = true) := by
  constructor
  · intro hfail
    have hc : check_date_str s =
        .error (.httpError 400 "Incorrect date format, should be YYYY-MM-DD") := by
      unfold check_date_str
      rw [if_neg (by simp [hfail])]
    refine ⟨?_, ?_, ?_⟩
    · unfold get_batches_for_date_and_user
      rw [hc]
    · unfold get_batch_from_id
      rw [hc]
    · unfold get_user_id_hashes_for_date
      rw [hc]
  · unfold check_date_str
    constructor
    · intro h
      by_cases hm : dateRegexMatch s
      · exact hm
      · rw [if_neg (by simp [hm])] at h
        cases h
    · intro h
      rw [if_pos h]

/-- Witness for C5's amended theorem: `2024-1-1` and `20240101` are rejected
with HTTP 400 by all three operations, a matching ASCII date is accepted,
and so is a date written with fullwidth (non-ASCII) Unicode decimal digits,
as Python's `\d` admits them. -/
theorem date_check_anchored_w :
    dateRegexMatch "2024-1-1" = false ∧ dateRegexMatch "20240101" = false ∧
    dateRegexMatch "２０２４-０１-０１" = true ∧
    (get_batches_for_date_and_user "2024-1-1" exPubId [] =
        .error (.httpError 400 "Incorrect date format, should be YYYY-MM-DD") ∧
      get_batch_from_id "2024-1-1" exPubId "x" [] =
        .error (.httpError 400 "Incorrect date format, should be YYYY-MM-DD") ∧
      get_user_id_hashes_for_date "2024-1-1" [] =
        .error (.httpError 400 "Incorrect date format, should be YYYY-MM-DD")) ∧
    (get_batches_for_date_and_user "20240101" exPubId [] =
        .error (.httpError 400 "Incorrect date format, should be YYYY-MM-DD") ∧
      get_batch_from_id "20240101" exPubId "x" [] =
        .error (.httpError 400 "Incorrect date format, should be YYYY-MM-DD") ∧
      get_user_id_hashes_for_date "20240101" [] =
        .error (.httpError 400 "Incorrect date format, should be YYYY-MM-DD")) ∧
    (check_date_str "2024-01-01" = .ok () ↔ dateRegexMatch "2024-01-01" = true) ∧
    (check_date_str "２０２４-０１-０１" = .ok () ↔
      dateRegexMatch "２０２４-０１-０１" = true) :=
  ⟨by decide, by decide, by decide,
    (date_check_anchored "2024-1-1" exPubId "x" []).1 (by decide),
    (date_check_anchored "20240101" exPubId "x" []).1 (by decide),
    (date_check_anchored "2024-01-01" exPubId "x" []).2,
    (date_check_anchored "２０２４-０１-０１" exPubId "x" []).2⟩

/-! ## Suffix handling in listings (claim C10) -/

theorem takeWhile_append_all {p : Char → Bool} {l1 l2 : List Char}
    (h : ∀ c ∈ l1, p c = true) :
    List.takeWhile p (l1 ++ l2) = l1 ++ List.takeWhile p l2 := by
  induction l1 with
  | nil => simp
  | cons a l ih =>
    rw [List.cons_append, List.takeWhile_cons, if_pos (h a (by simp))]
    rw [ih fun c hc => h c (by simp [hc])]
    rfl

theorem mapOrNone_eq_none {f : α → Option β} {l : List α} {x : α}
    (hx : x ∈ l) (hf : f x = none) : mapOrNone f l = none := by
  induction l with
  | nil => cases hx
  | cons a l ih =>
    rcases List.mem_cons.1 hx with rfl | hx2
    · simp [mapOrNone, hf]
    · unfold mapOrNone
      rcases hfa : f a with _ | y
      · rfl
      · rw [ih hx2]
        rfl

theorem mapOrNone_eq_map {f : α → Option β} {g : α → β} {l : List α}
    (h : ∀ x ∈ l, f x = some (g x)) : mapOrNone f l = some (l.map g) := by
  induction l with
  | nil => rfl
  | cons a l ih =>
    unfold mapOrNone
    rw [h a (by simp), ih fun x hx => h x (by simp [hx])]
    rfl

theorem endsWith_append (l : List Char) (sfx : String) :
    pyEndsWith ⟨l ++ sfx.data⟩ sfx = true := by
  unfold pyEndsWith
  exact List.isSuffixOf_iff_suffix.2 (List.suffix_append l sfx.data)

theorem afterLastSlash_suffix (s : List Char) (sfx : String)
    (hs : ∀ c ∈ sfx.data, c ≠ slashChar) :
    ∃ l, (afterLastSlash ⟨s ++ sfx.data⟩).data = l ++ sfx.data := by
  unfold afterLastSlash
  rw [show (⟨s ++ sfx.data⟩ : String).data = s ++ sfx.data from rfl]
  rw [List.reverse_append]
  rw [takeWhile_append_all (by
    intro c hc
    simp only [List.mem_reverse] at hc
    simp [hs c hc])]
  rw [List.reverse_append, List.reverse_reverse]
  exact ⟨_, rfl⟩

theorem filenameOf_data (now : UTCTime) (pid : String) (rand : Nat) :
    (filenameOf now pid rand).data =
      (("1/" ++ VERSION ++ "/" ++ dateIso now ++ "/1/" ++ pid ++ "/" ++
        batchIdOf now rand).data) ++ FILE_NAME_SUFFIX.data := by
  unfold filenameOf
  simp [String.data_append]

/-- Claim C10: extracting a batch id from a listed file name asserts the
`.json.gz` suffix.  When the name carries the suffix — as the final segment
of every key written by `submit` does — the function totally returns the name
with its last 8 characters removed; a listed name without the suffix makes
the whole listing raise (`assertionFailure`) instead of returning a result. -/
theorem batch_id_assertion :
    (∀ name : String, pyEndsWith name FILE_NAME_SUFFIX = true →
      get_batch_id_from_file_name name = some (pyDropRight name 8)) ∧
    (∀ (now : UTCTime) (pid : String) (rand : Nat),
      pyEndsWith (afterLastSlash (filenameOf now pid rand)) FILE_NAME_SUFFIX = true) ∧
    (∀ (pfx : String) (store : Store) (name : String),
      name ∈ (List.filter (fun k => strHasPfx pfx k) (storeKeys store)).map afterLastSlash →
      pyEndsWith name FILE_NAME_SUFFIX = false →
      get_batches_for_prefix pfx store = .error .assertionFailure) := by
  refine ⟨?_, ?_, ?_⟩
  · intro name h
    unfold get_batch_id_from_file_name
    rw [if_pos h]
    rfl
  · intro now pid rand
    have hd := filenameOf_data now pid rand
    have hs : ∀ c ∈ FILE_NAME_SUFFIX.data, c ≠ slashChar := by decide
    obtain ⟨l, hl⟩ := afterLastSlash_suffix
      (("1/" ++ VERSION ++ "/" ++ dateIso now ++ "/1/" ++ pid ++ "/" ++
        batchIdOf now rand).data) FILE_NAME_SUFFIX hs
    have : afterLastSlash (filenameOf now pid rand) =
        afterLastSlash ⟨(("1/" ++ VERSION ++ "/" ++ dateIso now ++ "/1/" ++ pid ++ "/" ++
          batchIdOf now rand).data) ++ FILE_NAME_SUFFIX.data⟩ :=
      congrArg afterLastSlash (String.ext hd)
    rw [this, show afterLastSlash ⟨(("1/" ++ VERSION ++ "/" ++ dateIso now ++ "/1/" ++ pid ++
      "/" ++ batchIdOf now rand).data) ++ FILE_NAME_SUFFIX.data⟩ =
        ⟨l ++ FILE_NAME_SUFFIX.data⟩ from String.ext hl]
    exact endsWith_append l FILE_NAME_SUFFIX
  · intro pfx store name hmem hfail
    unfold get_batches_for_prefix
    have hmem2 : name ∈ sortedStrings
        ((List.filter (fun k => strHasPfx pfx k) (storeKeys store)).map afterLastSlash) :=
      (List.mergeSort_perm _ strLe).mem_iff.2 hmem
    have hnone : get_batch_id_from_file_name name = none := by
      unfold get_batch_id_from_file_name
      rw [if_neg (by simp [hfail])]
    simp only [mapOrNone_eq_none hmem2 hnone]

/-- Witness for C10 at concrete names and a concrete store. -/
theorem batch_id_assertion_w :
    pyEndsWith "03723__0a1b2c3d.json.gz" FILE_NAME_SUFFIX = true ∧
    get_batch_id_from_file_name "03723__0a1b2c3d.json.gz" =
      some (pyDropRight "03723__0a1b2c3d.json.gz" 8) ∧
    pyEndsWith (afterLastSlash (filenameOf exNow exPubId 0)) FILE_NAME_SUFFIX = true ∧
    ("bad.txt" ∈ (List.filter (fun k => strHasPfx "p/" k)
        (storeKeys ([("p/bad.txt", [])] : Store))).map afterLastSlash ∧
      pyEndsWith "bad.txt" FILE_NAME_SUFFIX = false ∧
      get_batches_for_prefix "p/" ([("p/bad.txt", [])] : Store) =
        .error .assertionFailure) :=
  ⟨by decide, batch_id_assertion.1 _ (by decide), batch_id_assertion.2.1 exNow exPubId 0,
    by decide, by decide,
    batch_id_assertion.2.2 "p/" ([("p/bad.txt", [])] : Store) "bad.txt"
      (by decide) (by decide)⟩

/-! ## The hex digest (claim C1) -/

theorem strData_mk (l : List Char) : (⟨l⟩ : String).data = l := rfl

theorem laneBytes_length (x : Nat) : (laneBytes x).length = 8 := by
  simp [laneBytes]

theorem sha3_256Bytes_length (msg : List Nat) : (sha3_256Bytes msg).length = 32 := by
  have h4 : List.range 4 = [0, 1, 2, 3] := rfl
  simp [sha3_256Bytes, List.length_flatten, h4, laneBytes]

theorem sum_map_two (l : List Nat) : (l.map fun _ => (2 : Nat)).sum = 2 * l.length := by
  induction l with
  | nil => rfl
  | cons a l ih =>
    simp [List.map_cons, List.sum_cons, ih]
    omega

theorem sha3_hexdigest_length (msg : List Nat) : (sha3_256_hexdigest msg).length = 64 := by
  unfold sha3_256_hexdigest
  rw [strLength_mk, List.length_flatten, List.map_map]
  have heq : (List.length ∘ byteHexPair) = fun _ : Nat => (2 : Nat) := funext fun _ => rfl
  rw [heq, sum_map_two, sha3_256Bytes_length]

theorem sha3_hexdigest_chars (msg : List Nat) :
    ∀ c ∈ (sha3_256_hexdigest msg).data, c ∈ hexCharList := by
  intro c hc
  unfold sha3_256_hexdigest at hc
  rw [strData_mk] at hc
  obtain ⟨l, hl, hcl⟩ := List.mem_flatten.1 hc
  obtain ⟨b, -, rfl⟩ := List.mem_map.1 hl
  simp only [byteHexPair, List.mem_cons, List.not_mem_nil, or_false] at hcl
  rcases hcl with rfl | rfl
  · exact hexDig_mod_mem (b / 16)
  · exact hexDig_mod_mem b

/-- Claim C1: every batch with 1–100 items and a 36-character identifier is
accepted by `submit`, which returns `{status: "ok", public_user_id: h}` where
`h` is the SHA3-256 hex digest of the UTF-8 encoded identifier — 64 lowercase
hexadecimal characters — and depends on nothing but the identifier (the same
identifier always yields the same hash, whatever the items, time, randomness
or state). -/
theorem submit_valid_sha3 (b : Batch) (now : UTCTime) (rand : Nat) (st : ServerState)
    (h1 : 1 ≤ b.items.length) (h2 : b.items.length ≤ 100) (h3 : b.user_id.length = 36) :
    create_batch b now rand false st =
      .ok (⟨storePut (filenameOf now (user_id_hash_of b.user_id) rand)
          (gzipCompress (utf8Encode (hashedBatchJsonStr (hashedBatchOf b now)))) st.store,
        some (hashedBatchOf b now)⟩, ⟨"ok", user_id_hash_of b.user_id⟩) ∧
    user_id_hash_of b.user_id = sha3_256_hexdigest (utf8Encode b.user_id) ∧
    (user_id_hash_of b.user_id).length = 64 ∧
    (∀ c ∈ (user_id_hash_of b.user_id).data, c ∈ hexCharList) ∧
    (∀ (b2 : Batch) (now2 : UTCTime) (rand2 : Nat) (st2 : ServerState),
      b2.user_id = b.user_id → b2.items.length ≤ 100 →
      ∃ stx, create_batch b2 now2 rand2 false st2 =
        .ok (stx, ⟨"ok", user_id_hash_of b.user_id⟩)) := by
  refine ⟨create_batch_ok_of_valid b now rand st h2 h3, rfl,
    sha3_hexdigest_length _, sha3_hexdigest_chars _, ?_⟩
  intro b2 now2 rand2 st2 hu hlen
  have hok := create_batch_ok_of_valid b2 now2 rand2 st2 hlen (by rw [hu]; exact h3)
  rw [hu] at hok
  exact ⟨_, hok⟩

/-- Witness for C1 at a concrete 36-character identifier. -/
theorem submit_valid_sha3_w :
    (1 ≤ exBatch.items.length ∧ exBatch.items.length ≤ 100 ∧
      exBatch.user_id.length = 36) ∧
    (user_id_hash_of exBatch.user_id = sha3_256_hexdigest (utf8Encode exBatch.user_id) ∧
      (user_id_hash_of exBatch.user_id).length = 64 ∧
      (∀ c ∈ (user_id_hash_of exBatch.user_id).data, c ∈ hexCharList) ∧
      create_batch exBatch exNow 3 false initState =
        .ok (⟨storePut (filenameOf exNow (user_id_hash_of exBatch.user_id) 3)
            (gzipCompress (utf8Encode (hashedBatchJsonStr (hashedBatchOf exBatch exNow))))
            initState.store,
          some (hashedBatchOf exBatch exNow)⟩, ⟨"ok", user_id_hash_of exBatch.user_id⟩)) := by
  have h := submit_valid_sha3 exBatch exNow 3 initState (by decide) (by decide) (by decide)
  exact ⟨⟨by decide, by decide, by decide⟩, h.2.1, h.2.2.1, h.2.2.2.1, h.1⟩

/-! ## Claim C4 (corrected): the stored timestamp is an integer -/

/-- Counterexample to C4 as stated: submitting at an instant half a second
past the whole second, the `HashedBatch` that is cached (and stored and
returned by the latest-batch query) carries timestamp `1709780523`, an
integer that is not the ingestion time `1709780523.5` — the `int`-typed
field truncates the float epoch value, so the JSON number does not preserve
it. -/
theorem timestamp_not_float_cex :
    (handle (.create exBatch exNow 0 false) initState).1.last_batch =
      some (hashedBatchOf exBatch exNow) ∧
    (hashedBatchOf exBatch exNow).timestamp = 1709780523 ∧
    exNow.epoch = mkRat 3419561047 2 ∧
    ((1709780523 : Int) : ℚ) ≠ mkRat 3419561047 2 :=
  ⟨rfl, by decide, rfl, by decide⟩

/-- Claim C4 as amended: the `HashedBatch` constructed by a successful
submission (stored, cached, and returned by the latest-batch query) carries
the ingestion epoch seconds truncated toward zero to an integer (the
pydantic coercion at the `int`-typed `timestamp` field), and it is
serialized as that JSON integer. -/
theorem timestamp_truncated_int (b : Batch) (now : UTCTime) (rand : Nat)
    (st st2 : ServerState) (resp : SubmitResponse)
    (h : create_batch b now rand false st = .ok (st2, resp)) :
    st2.last_batch = some (hashedBatchOf b now) ∧
    (hashedBatchOf b now).timestamp = pyInt now.epoch ∧
    get_latest_batch st2 = [hashedBatchOf b now] ∧
    storeGet st2.store (filenameOf now (user_id_hash_of b.user_id) rand) =
      some (gzipCompress (utf8Encode (hashedBatchJsonStr (hashedBatchOf b now)))) ∧
    hashedBatchJson (hashedBatchOf b now) =
      .jobj [("user_id_hash", .jstr (user_id_hash_of b.user_id)),
             ("timestamp", .jnum (pyInt now.epoch)),
             ("items", .jarr (b.items.map itemJson))] := by
  obtain ⟨-, -, -, hst2, -⟩ := create_batch_ok_inv h
  subst hst2
  refine ⟨rfl, rfl, rfl, ?_, rfl⟩
  unfold storeGet storePut
  simp

/-- Witness for C4's amended theorem at a concrete submission. -/
theorem timestamp_truncated_int_w :
    (create_batch exBatch exNow 9 false initState =
      .ok (⟨storePut (filenameOf exNow (user_id_hash_of exBatch.user_id) 9)
          (gzipCompress (utf8Encode (hashedBatchJsonStr (hashedBatchOf exBatch exNow))))
          initState.store,
        some (hashedBatchOf exBatch exNow)⟩, ⟨"ok", user_id_hash_of exBatch.user_id⟩)) ∧
    (hashedBatchOf exBatch exNow).timestamp = pyInt exNow.epoch ∧
    pyInt exNow.epoch = 1709780523 := by
  have hok := create_batch_ok_of_valid exBatch exNow 9 initState (by decide) (by decide)
  have h := timestamp_truncated_int exBatch exNow 9 initState _ _ hok
  exact ⟨hok, h.2.1, by decide⟩

/-! ## The string order of Python `sorted` (claim C6) -/

theorem lexLt_irrefl (l : List Char) : lexLt l l = false := by
  induction l with
  | nil => rfl
  | cons a l ih => simp [lexLt, lt_irrefl, ih]

theorem lexLt_asymm {a b : List Char} (h : lexLt a b = true) : lexLt b a = false := by
  induction a generalizing b with
  | nil =>
    cases b with
    | nil => simpa [lexLt] using h
    | cons x xs => rfl
  | cons x xs ih =>
    cases b with
    | nil => simp [lexLt] at h
    | cons y ys =>
      simp only [lexLt] at h ⊢
      by_cases hxy : x < y
      · simp [hxy, asymm hxy, lt_irrefl]
      · by_cases hyx : y < x
        · simp [hxy, hyx] at h
        · simp [hxy, hyx] at h ⊢
          exact ih h

theorem lexLt_trans {a b c : List Char} (h1 : lexLt a b = true) (h2 : lexLt b c = true) :
    lexLt a c = true := by
  induction a generalizing b c with
  | nil =>
    cases c with
    | nil =>
      cases b with
      | nil => simpa [lexLt] using h1
      | cons y ys => simp [lexLt] at h2
    | cons z zs => rfl
  | cons x xs ih =>
    cases b with
    | nil => simp [lexLt] at h1
    | cons y ys =>
      cases c with
      | nil => simp [lexLt] at h2
      | cons z zs =>
        simp only [lexLt] at h1 h2 ⊢
        by_cases hxy : x < y
        · by_cases hyz : y < z
          · simp [lt_trans hxy hyz]
          · by_cases hzy : z < y
            · simp [hyz, hzy] at h2
            · have : y = z := by
                rcases lt_trichotomy y z with h | h | h
                · exact absurd h hyz
                · exact h
                · exact absurd h hzy
              subst this
              simp [hxy]
        · by_cases hyx : y < x
          · simp [hxy, hyx] at h1
          · have hxyeq : x = y := by
              rcases lt_trichotomy x y with h | h | h
              · exact absurd h hxy
              · exact h
              · exact absurd h hyx
            subst hxyeq
            simp only [hxy, if_false, lt_irrefl] at h1 ⊢
            by_cases hxz : x < z
            · simp [hxz]
            · by_cases hzx : z < x
              · simp [hxz, hzx] at h2
              · simp [hxz, hzx] at h1 h2 ⊢
                exact ih h1 h2

theorem lexLt_eq_of_not {a b : List Char} (h1 : lexLt a b = false)
    (h2 : lexLt b a = false) : a = b := by
  induction a generalizing b with
  | nil =>
    cases b with
    | nil => rfl
    | cons y ys => simp [lexLt] at h1
  | cons x xs ih =>
    cases b with
    | nil => simp [lexLt] at h2
    | cons y ys =>
      simp only [lexLt] at h1 h2
      by_cases hxy : x < y
      · simp [hxy] at h1
      · by_cases hyx : y < x
        · simp [hxy, hyx] at h2
        · have hxyeq : x = y := by
            rcases lt_trichotomy x y with h | h | h
            · exact absurd h hxy
            · exact h
            · exact absurd h hyx
          subst hxyeq
          rw [if_neg hxy, if_neg hxy] at h1
          rw [if_neg hxy, if_neg hxy] at h2
          rw [ih h1 h2]

theorem strLe_trans (a b c : String) (h1 : strLe a b = true) (h2 : strLe b c = true) :
    strLe a c = true := by
  unfold strLe at h1 h2 ⊢
  simp only [Bool.not_eq_true'] at h1 h2
  simp only [Bool.not_eq_true']
  by_cases hca : lexLt c.data a.data = true
  · by_cases hbc : lexLt b.data c.data = true
    · have := lexLt_trans hbc hca
      rw [this] at h1
      cases h1
    · have heq : b.data = c.data := lexLt_eq_of_not (by simpa using hbc) h2
      rw [← heq] at hca
      rw [hca] at h1
      cases h1
  · simpa using hca

theorem strLe_total (a b : String) : (strLe a b || strLe b a) = true := by
  unfold strLe
  by_cases h : lexLt b.data a.data = true
  · have := lexLt_asymm h
    simp [this]
  · simp [h]

theorem lexLt_append_same {x y s : List Char} (h : x.length = y.length) :
    lexLt (x ++ s) (y ++ s) = lexLt x y := by
  induction x generalizing y with
  | nil =>
    cases y with
    | nil => simp [lexLt_irrefl, lexLt]
    | cons b bs => simp at h
  | cons a as ih =>
    cases y with
    | nil => simp at h
    | cons b bs =>
      simp only [List.cons_append, lexLt, List.append_eq]
      rw [ih (by simpa using h)]

/-! ## The sorted listing (claim C6) -/

theorem afterLastSlash_eq {s t : List Char} (ht : ∀ c ∈ t, c ≠ slashChar) :
    afterLastSlash ⟨s ++ slashChar :: t⟩ = ⟨t⟩ := by
  unfold afterLastSlash
  rw [strData_mk]
  rw [show s ++ slashChar :: t = (s ++ [slashChar]) ++ t by simp]
  rw [List.reverse_append]
  rw [takeWhile_append_all (by
    intro c hc
    simp only [List.mem_reverse] at hc
    simp [ht c hc])]
  rw [List.reverse_append, List.reverse_reverse]
  rw [show (s ++ [slashChar]).reverse = slashChar :: s.reverse by simp]
  rw [List.takeWhile_cons]
  simp

theorem pyDropRight_append (id sfx : List Char) (h : sfx.length = 8) :
    pyDropRight ⟨id ++ sfx⟩ 8 = ⟨id⟩ := by
  unfold pyDropRight
  rw [strData_mk]
  congr 1
  rw [List.length_append, h]
  rw [show id.length + 8 - 8 = id.length by omega]
  exact List.take_left id sfx

theorem get_batches_for_prefix_sorted (pfx : String) (store : Store)
    (hp : ∃ q, pfx.data = q ++ [slashChar])
    (hk : ∀ k ∈ storeKeys store, strHasPfx pfx k = true →
      ∃ id : List Char, k.data = pfx.data ++ (id ++ FILE_NAME_SUFFIX.data) ∧
        (∀ c ∈ id, c ≠ slashChar) ∧ id.length = 15) :
    ∃ ids, get_batches_for_prefix pfx store = .ok ids ∧
      ids.Perm (idsUnderPfx pfx store) ∧
      List.Pairwise (fun a b => strLe a b = true) ids := by
  obtain ⟨q, hq⟩ := hp
  have hsfx_noslash : ∀ c ∈ FILE_NAME_SUFFIX.data, c ≠ slashChar := by decide
  have hsfx_len : FILE_NAME_SUFFIX.data.length = 8 := by decide
  -- shape of every listed file name
  have hname : ∀ name ∈ (List.filter (fun k => strHasPfx pfx k) (storeKeys store)).map
      afterLastSlash,
      ∃ id : List Char, name = ⟨id ++ FILE_NAME_SUFFIX.data⟩ ∧
        (∀ c ∈ id, c ≠ slashChar) ∧ id.length = 15 := by
    intro name hmem
    obtain ⟨k, hkmem, rfl⟩ := List.mem_map.1 hmem
    have hkf := List.mem_filter.1 hkmem
    obtain ⟨id, hid, hnos, hlen⟩ := hk k hkf.1 hkf.2
    refine ⟨id, ?_, hnos, hlen⟩
    have : k = ⟨q ++ slashChar :: (id ++ FILE_NAME_SUFFIX.data)⟩ := by
      apply String.ext
      rw [hid, hq]
      simp
    rw [this, afterLastSlash_eq]
    intro c hc
    rcases List.mem_append.1 hc with hc | hc
    · exact hnos c hc
    · exact hsfx_noslash c hc
  -- the sorted file names have the same shapes
  have hname2 : ∀ name ∈ sortedStrings ((List.filter (fun k => strHasPfx pfx k)
      (storeKeys store)).map afterLastSlash),
      ∃ id : List Char, name = ⟨id ++ FILE_NAME_SUFFIX.data⟩ ∧
        (∀ c ∈ id, c ≠ slashChar) ∧ id.length = 15 := by
    intro name hmem
    exact hname name ((List.mergeSort_perm _ strLe).mem_iff.1 hmem)
  -- stripping the suffix succeeds on every sorted name
  have hmap : mapOrNone get_batch_id_from_file_name
      (sortedStrings ((List.filter (fun k => strHasPfx pfx k)
        (storeKeys store)).map afterLastSlash)) =
      some ((sortedStrings ((List.filter (fun k => strHasPfx pfx k)
        (storeKeys store)).map afterLastSlash)).map fun name => pyDropRight name 8) := by
    apply mapOrNone_eq_map
    intro name hmem
    obtain ⟨id, rfl, -, -⟩ := hname2 name hmem
    unfold get_batch_id_from_file_name
    rw [if_pos (endsWith_append id FILE_NAME_SUFFIX)]
    rfl
  refine ⟨(sortedStrings ((List.filter (fun k => strHasPfx pfx k)
      (storeKeys store)).map afterLastSlash)).map fun name => pyDropRight name 8,
    ?_, ?_, ?_⟩
  · unfold get_batches_for_prefix
    simp only [hmap]
  · -- permutation with the spec's stripped identifiers
    have hperm := (List.mergeSort_perm ((List.filter (fun k => strHasPfx pfx k)
      (storeKeys store)).map afterLastSlash) strLe).map fun name => pyDropRight name 8
    apply hperm.trans
    rw [List.map_map]
    unfold idsUnderPfx
    apply List.Perm.of_eq
    apply List.map_congr_left
    intro k hkmem
    simp only [Function.comp]
    have hkf := List.mem_filter.1 hkmem
    obtain ⟨id, hid, hnos, hlen⟩ := hk k hkf.1 hkf.2
    have h1 : afterLastSlash k = ⟨id ++ FILE_NAME_SUFFIX.data⟩ := by
      have : k = ⟨q ++ slashChar :: (id ++ FILE_NAME_SUFFIX.data)⟩ := by
        apply String.ext
        rw [hid, hq]
        simp
      rw [this, afterLastSlash_eq]
      intro c hc
      rcases List.mem_append.1 hc with hc | hc
      · exact hnos c hc
      · exact hsfx_noslash c hc
    have h2 : k.data.drop pfx.data.length = id ++ FILE_NAME_SUFFIX.data := by
      rw [hid]
      exact List.drop_left pfx.data _
    rw [h1, pyDropRight_append id _ hsfx_len]
    rw [show (⟨k.data.drop pfx.data.length⟩ : String) = ⟨id ++ FILE_NAME_SUFFIX.data⟩ from
      String.ext (by rw [strData_mk, h2])]
    rw [pyDropRight_append id _ hsfx_len]
  · -- sortedness of the returned identifiers
    have hsorted := @List.sorted_mergeSort String strLe strLe_trans strLe_total
      ((List.filter (fun k => strHasPfx pfx k) (storeKeys store)).map afterLastSlash)
    rw [List.pairwise_map]
    apply hsorted.imp_of_mem
    intro a b ha hb hab
    obtain ⟨id1, rfl, -, hl1⟩ := hname2 a ha
    obtain ⟨id2, rfl, -, hl2⟩ := hname2 b hb
    rw [pyDropRight_append id1 _ hsfx_len, pyDropRight_append id2 _ hsfx_len]
    unfold strLe at hab ⊢
    rw [strData_mk, strData_mk] at hab ⊢
    rwa [lexLt_append_same (by omega)] at hab

/-- Claim C6: for a well-formed date and a 64-character public identifier,
`listBatchesForUserOnDate` returns exactly the batch identifiers obtained
from the object keys under `1/v1/{date}/1/{publicId}/` by stripping that
directory prefix and the `.json.gz` suffix (as a permutation pinned down by
the order), and the returned sequence is sorted in the lexicographic string
order.  The hypothesis describes the keys as `submit` writes them: prefix,
then a 15-character slash-free identifier, then the suffix. -/
theorem list_batches_sorted (date pid : String) (store : Store)
    (hd : dateRegexMatch date = true) (hp : pid.length = 64)
    (hk : ∀ k ∈ storeKeys store,
      strHasPfx ("1/" ++ VERSION ++ "/" ++ date ++ "/1/" ++ pid ++ "/") k = true →
      ∃ id : List Char,
        k.data = ("1/" ++ VERSION ++ "/" ++ date ++ "/1/" ++ pid ++ "/").data ++
          (id ++ FILE_NAME_SUFFIX.data) ∧ (∀ c ∈ id, c ≠ slashChar) ∧ id.length = 15) :
    ∃ ids, get_batches_for_date_and_user date pid store = .ok ids ∧
      ids.Perm (idsUnderPfx ("1/" ++ VERSION ++ "/" ++ date ++ "/1/" ++ pid ++ "/") store) ∧
      List.Pairwise (fun a b => strLe a b = true) ids := by
  have hpre : ∃ q, ("1/" ++ VERSION ++ "/" ++ date ++ "/1/" ++ pid ++ "/").data =
      q ++ [slashChar] := by
    refine ⟨("1/" ++ VERSION ++ "/" ++ date ++ "/1/" ++ pid).data, ?_⟩
    rw [show ("1/" ++ VERSION ++ "/" ++ date ++ "/1/" ++ pid ++ "/") =
      ("1/" ++ VERSION ++ "/" ++ date ++ "/1/" ++ pid) ++ "/" from rfl]
    rw [String.data_append]
    rfl
  obtain ⟨ids, hids, hperm, hsorted⟩ :=
    get_batches_for_prefix_sorted ("1/" ++ VERSION ++ "/" ++ date ++ "/1/" ++ pid ++ "/")
      store hpre hk
  refine ⟨ids, ?_, hperm, hsorted⟩
  unfold get_batches_for_date_and_user
  rw [show check_date_str date = .ok () by unfold check_date_str; rw [if_pos hd]]
  rw [show check_public_user_id pid = .ok () by
    unfold check_public_user_id
    rw [if_neg (by simp [hp, PUBLIC_USER_ID_LENGTH])]]
  exact hids

/-- Witness for C6: a concrete store with two batches for one user and day. -/
theorem list_batches_sorted_w :
    dateRegexMatch "2024-03-07" = true ∧ exPubId.length = 64 ∧
    (∃ ids, get_batches_for_date_and_user "2024-03-07" exPubId
        ([(("1/v1/2024-03-07/1/" ++ exPubId ++ "/03723__0a1b2c3d.json.gz"), []),
          (("1/v1/2024-03-07/1/" ++ exPubId ++ "/00001__ffffffff.json.gz"), [])] : Store) =
        .ok ids ∧
      ids.Perm (idsUnderPfx ("1/" ++ VERSION ++ "/" ++ "2024-03-07" ++ "/1/" ++ exPubId ++ "/")
        ([(("1/v1/2024-03-07/1/" ++ exPubId ++ "/03723__0a1b2c3d.json.gz"), []),
          (("1/v1/2024-03-07/1/" ++ exPubId ++ "/00001__ffffffff.json.gz"), [])] : Store)) ∧
      List.Pairwise (fun a b => strLe a b = true) ids) := by
  refine ⟨by decide, by decide, ?_⟩
  apply list_batches_sorted "2024-03-07" exPubId _ (by decide) (by decide)
  intro k hk hpfx
  rcases List.mem_cons.1 hk with rfl | hk2
  · refine ⟨("03723__0a1b2c3d").data, by decide, by decide, by decide⟩
  rcases List.mem_cons.1 hk2 with rfl | hk3
  · refine ⟨("00001__ffffffff").data, by decide, by decide, by decide⟩
  cases hk3

/-! ## The gzip round trip (claim C9) -/

theorem xor_lt_32 {a b : Nat} (ha : a < 4294967296) (hb : b < 4294967296) :
    a ^^^ b < 4294967296 := by
  have hpow : (2 : Nat) ^ 32 = 4294967296 := by norm_num
  have h := @Nat.xor_lt_two_pow a b 32 (by omega) (by omega)
  omega

theorem crcStep_lt {c : Nat} (h : c < 4294967296) : crcStep c < 4294967296 := by
  unfold crcStep
  split
  · exact xor_lt_32 (by omega) (by norm_num)
  · omega

theorem crc8_lt {c : Nat} (h : c < 4294967296) : crc8 c < 4294967296 := by
  unfold crc8
  exact crcStep_lt (crcStep_lt (crcStep_lt (crcStep_lt
    (crcStep_lt (crcStep_lt (crcStep_lt (crcStep_lt h)))))))

theorem crc32_foldl_lt (l : List Nat) {acc : Nat} (h : acc < 4294967296) :
    l.foldl crc32Update acc < 4294967296 := by
  induction l generalizing acc with
  | nil => exact h
  | cons b l ih =>
    rw [List.foldl_cons]
    apply ih
    unfold crc32Update
    exact crc8_lt (xor_lt_32 h (by have := Nat.mod_lt b (show 0 < 256 by omega); omega))

theorem crc32_lt (data : List Nat) : crc32 data < 4294967296 := by
  unfold crc32
  exact xor_lt_32 (crc32_foldl_lt data (by omega)) (by omega)

theorem readN_append (xs rest : List Nat) : readN xs.length (xs ++ rest) = some (xs, rest) := by
  unfold readN
  rw [if_pos (by simp)]
  rw [List.take_left, List.drop_left]

theorem parseBlocks_final (fuel : Nat) (d trailer : List Nat) (h : d.length ≤ 65535) :
    parseBlocks (fuel + 1) (storedBlocks d ++ trailer) = some (d, trailer) := by
  rw [show storedBlocks d =
      1 :: (le16 d.length ++ (le16 (65535 - d.length) ++ d)) by
    unfold storedBlocks
    rw [dif_pos h]]
  unfold le16
  simp only [List.cons_append, List.nil_append, List.append_assoc]
  have hlen : d.length % 256 + 256 * (d.length / 256 % 256) = d.length := by omega
  have hnlen : (65535 - d.length) % 256 + 256 * ((65535 - d.length) / 256 % 256) =
      65535 - d.length := by omega
  simp only [parseBlocks, hlen, hnlen]
  rw [if_pos (by omega)]
  rw [readN_append d trailer]
  simp

theorem storedBlocks_length_ge (d : List Nat) : d.length ≤ (storedBlocks d).length := by
  generalize hn : d.length = n
  induction n using Nat.strong_induction_on generalizing d with
  | _ n ih =>
    subst hn
    unfold storedBlocks
    split
    · simp only [le16, List.length_cons, List.length_append, List.length_nil]
      omega
    · rename_i h
      push_neg at h
      have hd : (d.drop 65535).length = d.length - 65535 := by simp
      have hrec := ih (d.drop 65535).length (by omega) (d.drop 65535) rfl
      rw [hd] at hrec
      simp only [le16, List.length_cons, List.length_append, List.length_take,
        List.length_cons, List.length_nil]
      omega

theorem storedBlocks_chunk {d : List Nat} (h : 65535 < d.length) :
    storedBlocks d =
      0 :: (le16 65535 ++ (le16 0 ++ d.take 65535)) ++ storedBlocks (d.drop 65535) := by
  conv_lhs => rw [storedBlocks]
  rw [dif_neg (by omega)]

theorem parseBlocks_stored : ∀ (fuel : Nat) (d trailer : List Nat),
    d.length ≤ 65535 * (fuel + 1) →
    parseBlocks (fuel + 1) (storedBlocks d ++ trailer) = some (d, trailer) := by
  intro fuel
  induction fuel with
  | zero =>
    intro d trailer h
    exact parseBlocks_final 0 d trailer (by omega)
  | succ fuel ih =>
    intro d trailer h
    by_cases hle : d.length ≤ 65535
    · exact parseBlocks_final (fuel + 1) d trailer hle
    · push_neg at hle
      rw [storedBlocks_chunk hle]
      have htake : (d.take 65535).length = 65535 := by
        rw [List.length_take]
        omega
      have hdrop : (d.drop 65535).length ≤ 65535 * (fuel + 1) := by
        rw [List.length_drop]
        have hm : 65535 * (fuel + 1 + 1) = 65535 * (fuel + 1) + 65535 := by ring
        omega
      have hih := ih (d.drop 65535) trailer hdrop
      have hstep : parseBlocks (fuel + 1 + 1)
          ((0 :: (le16 65535 ++ (le16 0 ++ d.take 65535)) ++ storedBlocks (d.drop 65535)) ++
            trailer) =
          match readN 65535 (d.take 65535 ++ (storedBlocks (d.drop 65535) ++ trailer)) with
          | some (chunk, rest) =>
            if (0 : Nat) = 1 then some (chunk, rest)
            else if (0 : Nat) = 0 then
              match parseBlocks (fuel + 1) rest with
              | some (more, rest2) => some (chunk ++ more, rest2)
              | none => none
            else none
          | none => none := by
        rw [show (0 :: (le16 65535 ++ (le16 0 ++ d.take 65535)) ++
            storedBlocks (d.drop 65535)) ++ trailer =
            0 :: 255 :: 255 :: 0 :: 0 ::
              (d.take 65535 ++ (storedBlocks (d.drop 65535) ++ trailer)) by simp [le16]]
        rfl
      rw [hstep]
      have hread := readN_append (d.take 65535) (storedBlocks (d.drop 65535) ++ trailer)
      rw [htake] at hread
      rw [hread]
      norm_num [hih]

theorem le32_pair_eq (x y : Nat) :
    le32 x ++ le32 y =
      [x % 256, x / 256 % 256, x / 65536 % 256, x / 16777216 % 256,
       y % 256, y / 256 % 256, y / 65536 % 256, y / 16777216 % 256] := by
  simp [le32]

theorem gzip_roundtrip (data : List Nat) : gzipDecompress (gzipCompress data) = some data := by
  have hT : gzipCompress data = 31 :: 139 :: 8 :: 0 :: 0 :: 0 :: 0 :: 0 :: 0 :: 255 ::
      (storedBlocks data ++ (le32 (crc32 data) ++ le32 (data.length % 4294967296))) := by
    unfold gzipCompress
    simp [List.append_assoc]
  rw [hT]
  simp only [gzipDecompress]
  have hpb := parseBlocks_stored
    (storedBlocks data ++ (le32 (crc32 data) ++ le32 (data.length % 4294967296))).length
    data (le32 (crc32 data) ++ le32 (data.length % 4294967296))
    (by
      have h1 := storedBlocks_length_ge data
      have h2 : 65535 * ((storedBlocks data ++
          (le32 (crc32 data) ++ le32 (data.length % 4294967296))).length + 1) =
          65535 * (storedBlocks data ++
            (le32 (crc32 data) ++ le32 (data.length % 4294967296))).length + 65535 := by
        ring
      have h3 : (storedBlocks data).length ≤ (storedBlocks data ++
          (le32 (crc32 data) ++ le32 (data.length % 4294967296))).length := by
        rw [List.length_append]
        omega
      omega)
  rw [hpb]
  rw [le32_pair_eq]
  have hcrc := crc32_lt data
  have hsz : data.length % 4294967296 < 4294967296 := Nat.mod_lt _ (by omega)
  simp only []
  rw [if_pos (by constructor <;> omega)]

/-! ## The UTF-8 round trip (claim C9) -/

theorem utf8DecodeAux_step (fuel : Nat) (c : Char) (tail : List Nat) :
    utf8DecodeAux (fuel + 1) (encodeChar c ++ tail) =
      (utf8DecodeAux fuel tail).map fun cs => c :: cs := by
  have hv : c.toNat < 55296 ∨ (57343 < c.toNat ∧ c.toNat < 1114112) := c.valid
  have hofnat : Char.ofNat c.toNat = c := Char.ofNat_toNat c
  unfold encodeChar
  by_cases h1 : c.toNat < 128
  · rw [if_pos h1]
    simp only [List.cons_append, List.nil_append]
    unfold utf8DecodeAux
    rw [if_pos h1, hofnat]
    exact congrArg (Option.map fun cs => c :: cs) (utf8DecodeAux.eq_def fuel tail)
  · rw [if_neg h1]
    push_neg at h1
    by_cases h2 : c.toNat < 2048
    · rw [if_pos h2]
      simp only [List.cons_append, List.nil_append]
      unfold utf8DecodeAux
      rw [if_neg (by omega), if_neg (by omega), if_pos (by omega)]
      simp only [List.headD_cons, List.drop_succ_cons, List.drop_zero]
      rw [if_pos (by omega)]
      rw [if_neg (by omega)]
      rw [show (192 + c.toNat / 64 - 192) * 64 + (128 + c.toNat % 64 - 128) =
        c.toNat from by omega, hofnat]
      exact congrArg (Option.map fun cs => c :: cs) (utf8DecodeAux.eq_def fuel tail)
    · rw [if_neg h2]
      push_neg at h2
      by_cases h3 : c.toNat < 65536
      · rw [if_pos h3]
        simp only [List.cons_append, List.nil_append]
        unfold utf8DecodeAux
        rw [if_neg (by omega), if_neg (by omega), if_neg (by omega), if_pos (by omega)]
        simp only [List.headD_cons, List.drop_succ_cons, List.drop_zero]
        rw [if_pos (by omega)]
        rw [if_neg (by omega)]
        rw [if_neg (by omega)]
        rw [show (224 + c.toNat / 4096 - 224) * 4096 + (128 + c.toNat / 64 % 64 - 128) * 64 +
          (128 + c.toNat % 64 - 128) = c.toNat from by omega, hofnat]
        exact congrArg (Option.map fun cs => c :: cs) (utf8DecodeAux.eq_def fuel tail)
      · rw [if_neg h3]
        push_neg at h3
        simp only [List.cons_append, List.nil_append]
        unfold utf8DecodeAux
        rw [if_neg (by omega), if_neg (by omega), if_neg (by omega), if_neg (by omega),
          if_pos (by omega)]
        simp only [List.headD_cons, List.drop_succ_cons, List.drop_zero]
        rw [if_pos (by omega)]
        rw [if_neg (by omega)]
        rw [if_neg (by omega)]
        rw [show (240 + c.toNat / 262144 - 240) * 262144 + (128 + c.toNat / 4096 % 64 - 128) *
          4096 + (128 + c.toNat / 64 % 64 - 128) * 64 + (128 + c.toNat % 64 - 128) =
          c.toNat from by omega, hofnat]
        exact congrArg (Option.map fun cs => c :: cs) (utf8DecodeAux.eq_def fuel tail)

theorem encodeChar_length_pos (c : Char) : 1 ≤ (encodeChar c).length := by
  unfold encodeChar
  by_cases h1 : c.toNat < 128 <;> by_cases h2 : c.toNat < 2048 <;>
    by_cases h3 : c.toNat < 65536 <;> simp [h1, h2, h3]

theorem utf8DecodeAux_flatMap : ∀ (cs : List Char) (fuel : Nat) (rest : List Nat),
    cs.length ≤ fuel →
    utf8DecodeAux (fuel + 1) (cs.flatMap encodeChar ++ rest) =
      (utf8DecodeAux (fuel + 1 - cs.length) rest).map fun ds => cs ++ ds := by
  intro cs
  induction cs with
  | nil =>
    intro fuel rest h
    simp
  | cons c cs ih =>
    intro fuel rest h
    simp only [List.length_cons] at h
    simp only [List.flatMap_cons, List.append_assoc]
    rw [utf8DecodeAux_step fuel c (cs.flatMap encodeChar ++ rest)]
    obtain ⟨fuel2, rfl⟩ : ∃ fuel2, fuel = fuel2 + 1 := ⟨fuel - 1, by omega⟩
    rw [ih fuel2 rest (by omega)]
    rw [Option.map_map]
    rw [show fuel2 + 1 + 1 - (c :: cs).length = fuel2 + 1 - cs.length by
      simp only [List.length_cons]
      omega]
    rfl

theorem length_le_flatMap_encode (cs : List Char) :
    cs.length ≤ (cs.flatMap encodeChar).length := by
  induction cs with
  | nil => simp
  | cons c cs ih =>
    rw [List.flatMap_cons, List.length_cons, List.length_append]
    have := encodeChar_length_pos c
    omega

theorem utf8Decode_encode (s : String) : utf8Decode (utf8Encode s) = some s.data := by
  unfold utf8Decode utf8Encode
  have hlen := length_le_flatMap_encode s.data
  have h := utf8DecodeAux_flatMap s.data ((s.data.flatMap encodeChar).length) []
    (by omega)
  rw [show s.data.flatMap encodeChar ++ [] = s.data.flatMap encodeChar by simp] at h
  rw [h]
  obtain ⟨k, hk⟩ : ∃ k, (s.data.flatMap encodeChar).length + 1 - s.data.length = k + 1 :=
    ⟨(s.data.flatMap encodeChar).length - s.data.length, by omega⟩
  rw [hk]
  rw [show utf8DecodeAux (k + 1) [] = some [] from rfl]
  simp

/-! ## JSON render/parse round-trip (for claim C9) -/

theorem hexDig_toNat16 {d : Nat} (h : d < 16) :
    (hexDig d).toNat = if d < 10 then 48 + d else 87 + d := by
  unfold hexDig
  by_cases h10 : d < 10
  · rw [if_pos h10]
    exact charOfNat_toNat (by omega)
  · rw [if_neg h10]
    exact charOfNat_toNat (by omega)

theorem hexPad_four (n : Nat) : hexPad 4 n =
    [hexDig (n / 4096 % 16), hexDig (n / 256 % 16), hexDig (n / 16 % 16), hexDig (n % 16)] := by
  simp [hexPad, List.range_succ]

theorem parseHexDigit_hexDig {d : Nat} (h : d < 16) : parseHexDigit (hexDig d) = some d := by
  interval_cases d <;> rfl

theorem parseHex4_hexPad (n : Nat) (l : List Char) (h : n < 65536) :
    parseHex4 (hexPad 4 n ++ l) = some (n, l) := by
  rw [hexPad_four]
  show parseHex4 (_ :: _ :: _ :: _ :: l) = _
  rw [parseHex4]
  rw [parseHexDigit_hexDig (by omega), parseHexDigit_hexDig (by omega),
      parseHexDigit_hexDig (by omega), parseHexDigit_hexDig (by omega)]
  show some (4096 * (n / 4096 % 16) + 256 * (n / 256 % 16) + 16 * (n / 16 % 16) + n % 16, l)
    = some (n, l)
  rw [show 4096 * (n / 4096 % 16) + 256 * (n / 256 % 16) + 16 * (n / 16 % 16) + n % 16 = n
    from by omega]

theorem parseEsc_shorthand {e d : Char} (l : List Char)
    (hu : e ≠ Char.ofNat 117) (he : escCode e = some d) :
    parseEsc (e :: l) = some (d, l) := by
  rw [parseEsc, if_neg hu, he]
  rfl

theorem parseEsc_u (l : List Char) :
    parseEsc (Char.ofNat 117 :: l) =
      (parseHex4 l).bind fun p =>
        if p.1 < 55296 ∨ 57344 ≤ p.1 then some (Char.ofNat p.1, p.2)
        else if p.1 < 56320 then
          if p.2.headD quoteChar = backslashChar ∧ (p.2.drop 1).headD quoteChar = Char.ofNat 117
          then
            (parseHex4 (p.2.drop 2)).bind fun q =>
              if 56320 ≤ q.1 ∧ q.1 < 57344 then
                some (Char.ofNat (65536 + (p.1 - 55296) * 1024 + (q.1 - 56320)), q.2)
              else none
          else none
        else none := rfl

theorem parseEsc_u_some (nv : Nat) (X l0 : List Char)
    (hp : parseHex4 l0 = some (nv, X)) :
    parseEsc (Char.ofNat 117 :: l0) =
      if nv < 55296 ∨ 57344 ≤ nv then some (Char.ofNat nv, X)
      else if nv < 56320 then
        if X.headD quoteChar = backslashChar ∧ (X.drop 1).headD quoteChar = Char.ofNat 117 then
          (parseHex4 (X.drop 2)).bind fun q =>
            if 56320 ≤ q.1 ∧ q.1 < 57344 then
              some (Char.ofNat (65536 + (nv - 55296) * 1024 + (q.1 - 56320)), q.2)
            else none
        else none
      else none := by
  rw [parseEsc_u, hp]
  rfl

theorem parseEsc_bmp (n : Nat) (l : List Char) (h16 : n < 65536)
    (hval : n < 55296 ∨ 57344 ≤ n) :
    parseEsc (Char.ofNat 117 :: (hexPad 4 n ++ l)) = some (Char.ofNat n, l) := by
  rw [parseEsc_u_some _ _ _ (parseHex4_hexPad _ _ h16), if_pos hval]

theorem parseEsc_pair_gen (hi lo : Nat) (l0 l1 l : List Char)
    (h0 : parseHex4 l0 = some (hi, backslashChar :: Char.ofNat 117 :: l1))
    (h1 : parseHex4 l1 = some (lo, l))
    (hhi1 : 55296 ≤ hi) (hhi2 : hi < 56320) (hlo1 : 56320 ≤ lo) (hlo2 : lo < 57344) :
    parseEsc (Char.ofNat 117 :: l0) =
      some (Char.ofNat (65536 + (hi - 55296) * 1024 + (lo - 56320)), l) := by
  rw [parseEsc_u_some _ _ _ h0, if_neg (by omega), if_pos hhi2]
  show (if backslashChar = backslashChar ∧ Char.ofNat 117 = Char.ofNat 117 then
      (parseHex4 l1).bind fun q =>
        if 56320 ≤ q.1 ∧ q.1 < 57344 then
          some (Char.ofNat (65536 + (hi - 55296) * 1024 + (q.1 - 56320)), q.2)
        else none
    else none) = some (Char.ofNat (65536 + (hi - 55296) * 1024 + (lo - 56320)), l)
  rw [if_pos (⟨rfl, rfl⟩ : backslashChar = backslashChar ∧ Char.ofNat 117 = Char.ofNat 117), h1]
  show (if 56320 ≤ lo ∧ lo < 57344 then
      some (Char.ofNat (65536 + (hi - 55296) * 1024 + (lo - 56320)), l)
    else none) = some (Char.ofNat (65536 + (hi - 55296) * 1024 + (lo - 56320)), l)
  rw [if_pos ⟨hlo1, hlo2⟩]

theorem parseEsc_pair (n : Nat) (l : List Char) (h1 : 65536 ≤ n) (h2 : n < 1114112) :
    parseEsc (Char.ofNat 117 :: (hexPad 4 (55296 + (n - 65536) / 1024) ++
      (backslashChar :: Char.ofNat 117 :: (hexPad 4 (56320 + (n - 65536) % 1024) ++ l)))) =
      some (Char.ofNat n, l) := by
  rw [parseEsc_pair_gen (55296 + (n - 65536) / 1024) (56320 + (n - 65536) % 1024) _ _ l
    (parseHex4_hexPad _ _ (by omega)) (parseHex4_hexPad _ _ (by omega))
    (by omega) (by omega) (by omega) (by omega)]
  rw [show 65536 + (55296 + (n - 65536) / 1024 - 55296) * 1024 +
    (56320 + (n - 65536) % 1024 - 56320) = n from by omega]

theorem parseStrBodyAux_quote (f : Nat) (l : List Char) :
    parseStrBodyAux (f + 1) (quoteChar :: l) = some ([], l) := rfl

theorem parseStrBodyAux_lit (f : Nat) (c : Char) (l : List Char) (h1 : c ≠ quoteChar)
    (h2 : c ≠ backslashChar) (h3 : 32 ≤ c.toNat) :
    parseStrBodyAux (f + 1) (c :: l) =
      (parseStrBodyAux f l).map fun p => (c :: p.1, p.2) := by
  rw [parseStrBodyAux, if_neg h1, if_neg h2, if_neg (by omega : ¬ c.toNat < 32)]

theorem parseStrBodyAux_esc (f : Nat) (l : List Char) :
    parseStrBodyAux (f + 1) (backslashChar :: l) =
      (parseEsc l).bind fun d =>
        (parseStrBodyAux f d.2).map fun p => (d.1 :: p.1, p.2) := by
  rw [parseStrBodyAux, if_neg (by decide : backslashChar ≠ quoteChar), if_pos rfl]

theorem parseStrBodyAux_flatMap : ∀ (cs : List Char) (fuel : Nat) (rest : List Char),
    cs.length < fuel →
    parseStrBodyAux fuel (cs.flatMap escapeChar ++ quoteChar :: rest) = some (cs, rest) := by
  intro cs
  induction cs with
  | nil =>
    intro fuel rest hf
    obtain ⟨f, rfl⟩ : ∃ f, fuel = f + 1 := ⟨fuel - 1, by omega⟩
    simp only [List.flatMap_nil, List.nil_append]
    exact parseStrBodyAux_quote f rest
  | cons c cs ih =>
    intro fuel rest hf
    obtain ⟨f, rfl⟩ : ∃ f, fuel = f + 1 := ⟨fuel - 1, by omega⟩
    have hf2 : cs.length < f := by
      simp only [List.length_cons] at hf
      omega
    rw [List.flatMap_cons, List.append_assoc]
    have hstep : ∀ d : Char, escCode d = some c → d ≠ Char.ofNat 117 →
        parseStrBodyAux (f + 1) ([backslashChar, d] ++
          (cs.flatMap escapeChar ++ quoteChar :: rest)) = some (c :: cs, rest) := by
      intro d hd hdu
      rw [List.cons_append, List.singleton_append, parseStrBodyAux_esc,
        parseEsc_shorthand _ hdu hd, Option.some_bind, ih f rest hf2]
      rfl
    by_cases h1 : c = quoteChar
    · rw [show escapeChar c = [backslashChar, quoteChar] from by
        unfold escapeChar; rw [if_pos h1]]
      exact hstep quoteChar (by rw [h1]; rfl) (by decide)
    by_cases h2 : c = backslashChar
    · rw [show escapeChar c = [backslashChar, backslashChar] from by
        unfold escapeChar; rw [if_neg h1, if_pos h2]]
      exact hstep backslashChar (by rw [h2]; rfl) (by decide)
    by_cases h3 : c.toNat = 8
    · rw [show escapeChar c = [backslashChar, Char.ofNat 98] from by
        unfold escapeChar; rw [if_neg h1, if_neg h2, if_pos h3]]
      have hc : c = Char.ofNat 8 := by
        have h0 := congrArg Char.ofNat h3
        rwa [Char.ofNat_toNat] at h0
      exact hstep (Char.ofNat 98) (by rw [hc]; rfl) (by decide)
    by_cases h4 : c.toNat = 9
    · rw [show escapeChar c = [backslashChar, Char.ofNat 116] from by
        unfold escapeChar; rw [if_neg h1, if_neg h2, if_neg h3, if_pos h4]]
      have hc : c = Char.ofNat 9 := by
        have h0 := congrArg Char.ofNat h4
        rwa [Char.ofNat_toNat] at h0
      exact hstep (Char.ofNat 116) (by rw [hc]; rfl) (by decide)
    by_cases h5 : c.toNat = 10
    · rw [show escapeChar c = [backslashChar, Char.ofNat 110] from by
        unfold escapeChar; rw [if_neg h1, if_neg h2, if_neg h3, if_neg h4, if_pos h5]]
      have hc : c = Char.ofNat 10 := by
        have h0 := congrArg Char.ofNat h5
        rwa [Char.ofNat_toNat] at h0
      exact hstep (Char.ofNat 110) (by rw [hc]; rfl) (by decide)
    by_cases h6 : c.toNat = 12
    · rw [show escapeChar c = [backslashChar, Char.ofNat 102] from by
        unfold escapeChar; rw [if_neg h1, if_neg h2, if_neg h3, if_neg h4, if_neg h5, if_pos h6]]
      have hc : c = Char.ofNat 12 := by
        have h0 := congrArg Char.ofNat h6
        rwa [Char.ofNat_toNat] at h0
      exact hstep (Char.ofNat 102) (by rw [hc]; rfl) (by decide)
    by_cases h7 : c.toNat = 13
    · rw [show escapeChar c = [backslashChar, Char.ofNat 114] from by
        unfold escapeChar
        rw [if_neg h1, if_neg h2, if_neg h3, if_neg h4, if_neg h5, if_neg h6, if_pos h7]]
      have hc : c = Char.ofNat 13 := by
        have h0 := congrArg Char.ofNat h7
        rwa [Char.ofNat_toNat] at h0
      exact hstep (Char.ofNat 114) (by rw [hc]; rfl) (by decide)
    by_cases h8 : 32 ≤ c.toNat ∧ c.toNat ≤ 126
    · rw [show escapeChar c = [c] from by
        unfold escapeChar
        rw [if_neg h1, if_neg h2, if_neg h3, if_neg h4, if_neg h5, if_neg h6, if_neg h7,
          if_pos h8]]
      rw [List.singleton_append, parseStrBodyAux_lit f c _ h1 h2 h8.1, ih f rest hf2]
      rfl
    have hv : c.toNat < 55296 ∨ (57343 < c.toNat ∧ c.toNat < 1114112) := c.valid
    by_cases h9 : c.toNat < 65536
    · rw [show escapeChar c = backslashChar :: Char.ofNat 117 :: hexPad 4 c.toNat from by
        unfold escapeChar
        rw [if_neg h1, if_neg h2, if_neg h3, if_neg h4, if_neg h5, if_neg h6, if_neg h7,
          if_neg h8, if_pos h9]]
      rw [List.cons_append, List.cons_append, parseStrBodyAux_esc,
        parseEsc_bmp c.toNat _ h9 (by omega), Option.some_bind, ih f rest hf2,
        Char.ofNat_toNat]
      rfl
    · rw [show escapeChar c =
          (backslashChar :: Char.ofNat 117 :: hexPad 4 (55296 + (c.toNat - 65536) / 1024)) ++
            (backslashChar :: Char.ofNat 117 :: hexPad 4 (56320 + (c.toNat - 65536) % 1024))
          from by
        unfold escapeChar
        rw [if_neg h1, if_neg h2, if_neg h3, if_neg h4, if_neg h5, if_neg h6, if_neg h7,
          if_neg h8, if_neg h9]]
      rw [List.append_assoc]
      simp only [List.cons_append]
      rw [parseStrBodyAux_esc, parseEsc_pair c.toNat _ (by omega) (by omega),
        Option.some_bind, ih f rest hf2, Char.ofNat_toNat]
      rfl


theorem escapeChar_length_pos (c : Char) : 1 ≤ (escapeChar c).length := by
  unfold escapeChar
  by_cases h1 : c = quoteChar
  · simp [h1]
  rw [if_neg h1]
  by_cases h2 : c = backslashChar
  · simp [h2]
  rw [if_neg h2]
  by_cases h3 : c.toNat = 8
  · simp [h3]
  rw [if_neg h3]
  by_cases h4 : c.toNat = 9
  · simp [h4]
  rw [if_neg h4]
  by_cases h5 : c.toNat = 10
  · simp [h5]
  rw [if_neg h5]
  by_cases h6 : c.toNat = 12
  · simp [h6]
  rw [if_neg h6]
  by_cases h7 : c.toNat = 13
  · simp [h7]
  rw [if_neg h7]
  by_cases h8 : 32 ≤ c.toNat ∧ c.toNat ≤ 126
  · simp [h8]
  rw [if_neg h8]
  by_cases h9 : c.toNat < 65536
  · simp [h9]
  · simp [h9]

theorem length_le_flatMap_escape (cs : List Char) :
    cs.length ≤ (cs.flatMap escapeChar).length := by
  induction cs with
  | nil => simp
  | cons c cs ih =>
    rw [List.flatMap_cons, List.length_append, List.length_cons]
    have := escapeChar_length_pos c
    omega

theorem parseStrBody_render (cs rest : List Char) :
    parseStrBody (cs.flatMap escapeChar ++ quoteChar :: rest) = some (cs, rest) := by
  unfold parseStrBody
  apply parseStrBodyAux_flatMap
  have := length_le_flatMap_escape cs
  rw [List.length_append, List.length_cons]
  omega

theorem natChars_head_ne_zero (n : Nat) (h : 1 ≤ n) :
    (natChars n).headD quoteChar ≠ Char.ofNat 48 := by
  induction n using Nat.strong_induction_on with
  | _ n ih =>
    unfold natChars
    split
    · rename_i h10
      simp only [List.headD_cons]
      intro heq
      have h0 := congrArg Char.toNat heq
      rw [hexDig_toNat_of_lt h10, charOfNat_toNat (by omega)] at h0
      omega
    · rename_i h10
      obtain ⟨a, as, he⟩ := List.exists_cons_of_ne_nil (natChars_ne_nil (n / 10))
      rw [he, List.cons_append, List.headD_cons]
      have := ih (n / 10) (Nat.div_lt_self (by omega) (by omega)) (by omega)
      rwa [he, List.headD_cons] at this

theorem takeWhile_head_false {l : List Char} {p : Char → Bool}
    (h : p (l.headD quoteChar) = false) : l.takeWhile p = [] := by
  cases l with
  | nil => rfl
  | cons a t =>
    simp only [List.headD_cons] at h
    simp [List.takeWhile_cons, h]

theorem dropWhile_head_false {l : List Char} {p : Char → Bool}
    (h : p (l.headD quoteChar) = false) : l.dropWhile p = l := by
  cases l with
  | nil => rfl
  | cons a t =>
    simp only [List.headD_cons] at h
    simp [List.dropWhile_cons, h]

theorem dropWhile_append_all {p : Char → Bool} {l1 l2 : List Char}
    (h : ∀ c ∈ l1, p c = true) :
    List.dropWhile p (l1 ++ l2) = List.dropWhile p l2 := by
  induction l1 with
  | nil => simp
  | cons a l ih =>
    rw [List.cons_append, List.dropWhile_cons]
    rw [h a (by simp)]
    simp only [if_true]
    exact ih fun c hc => h c (by simp [hc])

theorem parseNum_cons (c : Char) (l : List Char) :
    parseNum (c :: l) =
      if c = minusChar then
        (if l.takeWhile isDigitChar = [] then none
         else if 1 < (l.takeWhile isDigitChar).length ∧
             (l.takeWhile isDigitChar).headD quoteChar = Char.ofNat 48 then none
         else some (-(digitsVal (l.takeWhile isDigitChar) : Int), l.dropWhile isDigitChar))
      else
        (if (c :: l).takeWhile isDigitChar = [] then none
         else if 1 < ((c :: l).takeWhile isDigitChar).length ∧
             ((c :: l).takeWhile isDigitChar).headD quoteChar = Char.ofNat 48 then none
         else some ((digitsVal ((c :: l).takeWhile isDigitChar) : Int),
           (c :: l).dropWhile isDigitChar)) := rfl

theorem natChars_num_guards (m : Nat) (rest : List Char)
    (hrest : isDigitChar (rest.headD quoteChar) = false) :
    (natChars m ++ rest).takeWhile isDigitChar = natChars m ∧
      (natChars m ++ rest).dropWhile isDigitChar = rest ∧
      ¬(1 < (natChars m).length ∧ (natChars m).headD quoteChar = Char.ofNat 48) := by
  refine ⟨?_, ?_, ?_⟩
  · rw [takeWhile_append_all (natChars_all_digits m), takeWhile_head_false hrest,
      List.append_nil]
  · rw [dropWhile_append_all (natChars_all_digits m), dropWhile_head_false hrest]
  · rcases Nat.eq_zero_or_pos m with hm | hm
    · subst hm
      intro hcon
      have h1 : natChars 0 = [hexDig 0] := by
        unfold natChars
        simp
      rw [h1] at hcon
      simp at hcon
    · exact fun hcon => natChars_head_ne_zero m hm hcon.2

theorem parseNum_intChars (i : Int) (rest : List Char)
    (hrest : isDigitChar (rest.headD quoteChar) = false) :
    parseNum (intChars i ++ rest) = some (i, rest) := by
  obtain ⟨htk, hdr, hguard⟩ := natChars_num_guards i.natAbs rest hrest
  unfold intChars
  by_cases hneg : i < 0
  · rw [if_pos hneg, List.cons_append, parseNum_cons, if_pos rfl, htk, hdr,
      if_neg (by simp [natChars_ne_nil]), if_neg hguard, digitsVal_natChars]
    rw [show -((i.natAbs : Nat) : Int) = i from by omega]
  · rw [if_neg hneg]
    obtain ⟨a, as, he⟩ := List.exists_cons_of_ne_nil (natChars_ne_nil i.natAbs)
    have ha : isDigitChar a = true := natChars_all_digits i.natAbs a (by rw [he]; simp)
    have hanm : a ≠ minusChar := by
      intro hc
      have h0 := congrArg Char.toNat hc
      rw [show minusChar.toNat = 45 from rfl] at h0
      unfold isDigitChar at ha
      simp at ha
      omega
    rw [he, List.cons_append, parseNum_cons, if_neg hanm, ← List.cons_append, ← he, htk, hdr,
      if_neg (by simp [natChars_ne_nil]), if_neg hguard, digitsVal_natChars]
    rw [show ((i.natAbs : Nat) : Int) = i from by omega]

theorem intChars_ne_nil (i : Int) : intChars i ≠ [] := by
  unfold intChars
  split
  · simp
  · exact natChars_ne_nil _

theorem intChars_head (i : Int) :
    isDigitChar ((intChars i).headD quoteChar) = true ∨
      (intChars i).headD quoteChar = minusChar := by
  unfold intChars
  split
  · right
    rfl
  · left
    obtain ⟨a, as, he⟩ := List.exists_cons_of_ne_nil (natChars_ne_nil i.natAbs)
    rw [he, List.headD_cons]
    exact natChars_all_digits i.natAbs a (by rw [he]; simp)

theorem isJsonWs_false_of_toNat {c : Char} (h : 33 ≤ c.toNat) : isJsonWs c = false := by
  unfold isJsonWs
  have hsp : c ≠ spaceChar := by
    intro he
    have h0 := congrArg Char.toNat he
    rw [show spaceChar.toNat = 32 from rfl] at h0
    omega
  simp [hsp]
  omega

theorem neq_of_toNat {a b : Char} (h : a.toNat ≠ b.toNat) : a ≠ b :=
  fun he => h (congrArg Char.toNat he)

theorem skipWs_of_head {l : List Char} (h : isJsonWs (l.headD quoteChar) = false) :
    skipWs l = l := by
  unfold skipWs
  exact dropWhile_head_false h

theorem skipWs_space (l : List Char) : skipWs (spaceChar :: l) = skipWs l := by
  unfold skipWs
  rw [List.dropWhile_cons]
  rw [show isJsonWs spaceChar = true from rfl]
  simp only [if_true]

theorem headD_append {l1 l2 : List Char} (h : l1 ≠ []) :
    (l1 ++ l2).headD quoteChar = l1.headD quoteChar := by
  cases l1 with
  | nil => exact absurd rfl h
  | cons a t => rfl

theorem renderElems_cons (x : JsonValue) (xs : List JsonValue) :
    ∃ t, renderElems (x :: xs) = renderJson x ++ t := by
  cases xs with
  | nil =>
    exact ⟨[], by rw [renderElems, List.append_nil]⟩
  | cons y ys =>
    exact ⟨commaChar :: spaceChar :: renderElems (y :: ys), by rw [renderElems]⟩

theorem renderFields_cons (k : String) (v : JsonValue) (fs : List (String × JsonValue)) :
    ∃ t, renderFields ((k, v) :: fs) = quoteChar :: (k.data.flatMap escapeChar ++ quoteChar :: t)
    := by
  cases fs with
  | nil =>
    refine ⟨colonChar :: spaceChar :: renderJson v, ?_⟩
    rw [renderFields]
    unfold renderString
    rw [List.cons_append, List.append_assoc]
    rfl
  | cons f fs2 =>
    refine ⟨colonChar :: spaceChar :: (renderJson v ++
      (commaChar :: spaceChar :: renderFields (f :: fs2))), ?_⟩
    rw [renderFields]
    unfold renderString
    rw [List.append_assoc, List.cons_append, List.append_assoc]
    rfl

theorem renderJson_head (v : JsonValue) :
    renderJson v ≠ [] ∧ isJsonWs ((renderJson v).headD quoteChar) = false ∧
      (renderJson v).headD quoteChar ≠ rbrackChar := by
  cases v with
  | jnull => exact ⟨by rw [renderJson]; simp, by rfl, by decide⟩
  | jbool b =>
    cases b with
    | true => exact ⟨by rw [renderJson]; simp, by rfl, by decide⟩
    | false => exact ⟨by rw [renderJson]; simp, by rfl, by decide⟩
  | jnum i =>
    refine ⟨by rw [renderJson]; exact intChars_ne_nil i, ?_, ?_⟩
    · rw [renderJson]
      rcases intChars_head i with h | h
      · apply isJsonWs_false_of_toNat
        unfold isDigitChar at h
        simp only [Bool.and_eq_true, decide_eq_true_eq] at h
        omega
      · rw [h]
        rfl
    · rw [renderJson]
      rcases intChars_head i with h | h
      · apply neq_of_toNat
        unfold isDigitChar at h
        simp only [Bool.and_eq_true, decide_eq_true_eq] at h
        rw [show rbrackChar.toNat = 93 from rfl]
        omega
      · rw [h]
        decide
  | jstr s =>
    refine ⟨by rw [renderJson]; unfold renderString; simp, by rfl, ?_⟩
    rw [show (renderJson (JsonValue.jstr s)).headD quoteChar = quoteChar from rfl]
    decide
  | jarr xs =>
    refine ⟨by rw [renderJson]; simp, by rfl, ?_⟩
    rw [show (renderJson (JsonValue.jarr xs)).headD quoteChar = lbrackChar from rfl]
    decide
  | jobj fs =>
    refine ⟨by rw [renderJson]; simp, by rfl, ?_⟩
    rw [show (renderJson (JsonValue.jobj fs)).headD quoteChar = lbraceChar from rfl]
    decide

theorem jsize_pos (v : JsonValue) : 1 ≤ jsize v := by
  cases v <;> rw [jsize] <;> omega

theorem jsizeL_cons (x : JsonValue) (xs : List JsonValue) :
    jsizeL (x :: xs) = jsize x + jsizeL xs := by rw [jsizeL]

theorem jsizeF_cons (k : String) (v : JsonValue) (fs : List (String × JsonValue)) :
    jsizeF ((k, v) :: fs) = jsize v + jsizeF fs := by rw [jsizeF]

theorem jsizeL_nil : jsizeL [] = 0 := by rw [jsizeL]

theorem jsizeF_nil : jsizeF [] = 0 := by rw [jsizeF]

theorem render_size : ∀ n : Nat,
    (∀ v : JsonValue, jsize v ≤ n → 2 * jsize v ≤ (renderJson v).length + 1) ∧
    (∀ xs : List JsonValue, xs ≠ [] → jsizeL xs ≤ n →
      2 * jsizeL xs ≤ (renderElems xs).length + 1) ∧
    (∀ fs : List (String × JsonValue), fs ≠ [] → jsizeF fs ≤ n →
      2 * jsizeF fs ≤ (renderFields fs).length + 1) := by
  intro n
  induction n with
  | zero =>
    refine ⟨?_, ?_, ?_⟩
    · intro v hv
      have := jsize_pos v
      omega
    · intro xs hne hsz
      obtain ⟨x, xs2, rfl⟩ := List.exists_cons_of_ne_nil hne
      rw [jsizeL_cons] at hsz
      have := jsize_pos x
      omega
    · intro fs hne hsz
      obtain ⟨f, fs2, rfl⟩ := List.exists_cons_of_ne_nil hne
      obtain ⟨k, v⟩ := f
      rw [jsizeF_cons] at hsz
      have := jsize_pos v
      omega
  | succ n ih =>
    obtain ⟨ihV, ihL, ihF⟩ := ih
    have hV : ∀ v : JsonValue, jsize v ≤ n + 1 → 2 * jsize v ≤ (renderJson v).length + 1 := by
      intro v hv
      cases v with
      | jnull => decide
      | jbool b => cases b <;> decide
      | jnum i =>
        rw [renderJson, jsize]
        have h0 := intChars_ne_nil i
        have h1 : 0 < (intChars i).length := List.length_pos.mpr h0
        omega
      | jstr s =>
        rw [renderJson, jsize]
        unfold renderString
        rw [List.length_cons, List.length_append]
        omega
      | jarr xs =>
        rw [jsize] at hv
        rw [renderJson, jsize]
        cases xs with
        | nil =>
          rw [jsizeL_nil, renderElems]
          decide
        | cons x xs2 =>
          have hb := ihL (x :: xs2) (by simp) (by omega)
          rw [List.length_cons, List.length_append, List.length_cons, List.length_nil]
          omega
      | jobj fs =>
        rw [jsize] at hv
        rw [renderJson, jsize]
        cases fs with
        | nil =>
          rw [jsizeF_nil, renderFields]
          decide
        | cons f fs2 =>
          have hb := ihF (f :: fs2) (by simp) (by omega)
          rw [List.length_cons, List.length_append, List.length_cons, List.length_nil]
          omega
    refine ⟨hV, ?_, ?_⟩
    · intro xs hne hsz
      obtain ⟨x, xs2, rfl⟩ := List.exists_cons_of_ne_nil hne
      rw [jsizeL_cons] at hsz ⊢
      have hx := jsize_pos x
      cases xs2 with
      | nil =>
        rw [jsizeL_nil, renderElems]
        have := hV x (by omega)
        omega
      | cons y ys =>
        rw [renderElems, List.length_append, List.length_cons, List.length_cons]
        have h1 := hV x (by rw [jsizeL_cons] at hsz; have := jsize_pos y; omega)
        have h2 := ihL (y :: ys) (by simp) (by omega)
        omega
    · intro fs hne hsz
      obtain ⟨f, fs2, rfl⟩ := List.exists_cons_of_ne_nil hne
      obtain ⟨k, v⟩ := f
      rw [jsizeF_cons] at hsz ⊢
      have hx := jsize_pos v
      cases fs2 with
      | nil =>
        rw [renderFields, jsizeF_nil, List.length_append, List.length_cons, List.length_cons]
        have := hV v (by omega)
        omega
      | cons f2 fs3 =>
        obtain ⟨k2, v2⟩ := f2
        rw [renderFields, List.length_append, List.length_append, List.length_cons,
          List.length_cons, List.length_cons, List.length_cons]
        rw [jsizeF_cons] at hsz
        have hv2 := jsize_pos v2
        have h1 := hV v (by omega)
        have h2 := ihF ((k2, v2) :: fs3) (by simp) (by rw [jsizeF_cons]; omega)
        rw [jsizeF_cons]
        rw [jsizeF_cons] at h2
        omega

theorem headD_take_four {l : List Char} {a : Char} {t : List Char}
    (h : l.take 4 = a :: t) : l.headD quoteChar = a := by
  cases l with
  | nil => simp at h
  | cons b bs =>
    have h2 : b :: List.take 3 bs = a :: t := h
    injection h2

theorem headD_take_five {l : List Char} {a : Char} {t : List Char}
    (h : l.take 5 = a :: t) : l.headD quoteChar = a := by
  cases l with
  | nil => simp at h
  | cons b bs =>
    have h2 : b :: List.take 4 bs = a :: t := h
    injection h2

theorem parse_render : ∀ fuel : Nat,
    (∀ (v : JsonValue) (rest : List Char), 2 * jsize v ≤ fuel →
      isDigitChar (rest.headD quoteChar) = false →
      parseVal fuel (renderJson v ++ rest) = some (v, rest)) ∧
    (∀ (xs : List JsonValue) (rest : List Char), xs ≠ [] → 2 * jsizeL xs + 1 ≤ fuel →
      parseElems fuel (renderElems xs ++ rbrackChar :: rest) = some (xs, rest)) ∧
    (∀ (fs : List (String × JsonValue)) (rest : List Char), fs ≠ [] → 2 * jsizeF fs + 1 ≤ fuel →
      parseFields fuel (renderFields fs ++ rbraceChar :: rest) = some (fs, rest)) := by
  intro fuel
  induction fuel with
  | zero =>
    refine ⟨fun v rest hsz _ => absurd hsz (by have := jsize_pos v; omega),
      fun xs rest hne hsz => absurd hsz (by omega),
      fun fs rest hne hsz => absurd hsz (by omega)⟩
  | succ n ih =>
    obtain ⟨ihV, ihL, ihF⟩ := ih
    refine ⟨?_, ?_, ?_⟩
    · -- parseVal
      intro v rest hsz hrest
      cases v with
      | jnull =>
        rw [show renderJson JsonValue.jnull = 'n' :: 'u' :: 'l' :: 'l' :: [] from rfl]
        simp only [List.cons_append, List.nil_append]
        rw [parseVal, if_neg (by decide), if_neg (by decide), if_neg (by decide)]
        rw [show List.take 4 ('n' :: 'u' :: 'l' :: 'l' :: rest) = ['n', 'u', 'l', 'l'] from rfl]
        rw [if_neg (by decide)]
        rw [show List.take 5 ('n' :: 'u' :: 'l' :: 'l' :: rest) =
          'n' :: 'u' :: 'l' :: 'l' :: List.take 1 rest from rfl]
        rw [if_neg (by rw [show (("false").data : List Char) =
          'f' :: 'a' :: 'l' :: 's' :: 'e' :: [] from rfl]; simp)]
        rw [if_pos (by decide)]
        rfl
      | jbool b =>
        cases b with
        | true =>
          rw [show renderJson (JsonValue.jbool true) = 't' :: 'r' :: 'u' :: 'e' :: [] from rfl]
          simp only [List.cons_append, List.nil_append]
          rw [parseVal, if_neg (by decide), if_neg (by decide), if_neg (by decide)]
          rw [show List.take 4 ('t' :: 'r' :: 'u' :: 'e' :: rest) = ['t', 'r', 'u', 'e'] from rfl]
          rw [if_pos (by decide)]
          rfl
        | false =>
          rw [show renderJson (JsonValue.jbool false) =
            'f' :: 'a' :: 'l' :: 's' :: 'e' :: [] from rfl]
          simp only [List.cons_append, List.nil_append]
          rw [parseVal, if_neg (by decide), if_neg (by decide), if_neg (by decide)]
          rw [show List.take 4 ('f' :: 'a' :: 'l' :: 's' :: 'e' :: rest) =
            ['f', 'a', 'l', 's'] from rfl]
          rw [if_neg (by decide)]
          rw [show List.take 5 ('f' :: 'a' :: 'l' :: 's' :: 'e' :: rest) =
            ['f', 'a', 'l', 's', 'e'] from rfl]
          rw [if_pos (by decide)]
          rfl
      | jnum i =>
        rw [show renderJson (JsonValue.jnum i) = intChars i from rfl]
        obtain ⟨a, as, he⟩ := List.exists_cons_of_ne_nil (intChars_ne_nil i)
        have htoNat : a.toNat = 45 ∨ (48 ≤ a.toNat ∧ a.toNat ≤ 57) := by
          rcases intChars_head i with h | h
          · right
            rw [he, List.headD_cons] at h
            unfold isDigitChar at h
            simp only [Bool.and_eq_true, decide_eq_true_eq] at h
            exact h
          · left
            rw [he, List.headD_cons] at h
            rw [h]
            rfl
        rw [he, List.cons_append, parseVal]
        rw [if_neg (by apply neq_of_toNat; rw [show quoteChar.toNat = 34 from rfl]; omega)]
        rw [if_neg (by apply neq_of_toNat; rw [show lbrackChar.toNat = 91 from rfl]; omega)]
        rw [if_neg (by apply neq_of_toNat; rw [show lbraceChar.toNat = 123 from rfl]; omega)]
        rw [if_neg (by
          intro hcon
          rw [show (("true").data : List Char) = 't' :: 'r' :: 'u' :: 'e' :: [] from rfl] at hcon
          have h4 := headD_take_four hcon
          rw [List.headD_cons] at h4
          have := congrArg Char.toNat h4
          rw [show ('t' : Char).toNat = 116 from rfl] at this
          omega)]
        rw [if_neg (by
          intro hcon
          rw [show (("false").data : List Char) = 'f' :: 'a' :: 'l' :: 's' :: 'e' :: [] from rfl]
            at hcon
          have h4 := headD_take_five hcon
          rw [List.headD_cons] at h4
          have := congrArg Char.toNat h4
          rw [show ('f' : Char).toNat = 102 from rfl] at this
          omega)]
        rw [if_neg (by
          intro hcon
          rw [show (("null").data : List Char) = 'n' :: 'u' :: 'l' :: 'l' :: [] from rfl] at hcon
          have h4 := headD_take_four hcon
          rw [List.headD_cons] at h4
          have := congrArg Char.toNat h4
          rw [show ('n' : Char).toNat = 110 from rfl] at this
          omega)]
        rw [← List.cons_append, ← he, parseNum_intChars i rest hrest]
        rfl
      | jstr s =>
        rw [show renderJson (JsonValue.jstr s) = renderString s from rfl]
        unfold renderString
        rw [List.cons_append, List.append_assoc, List.singleton_append]
        rw [parseVal, if_pos rfl, parseStrBody_render]
        rfl
      | jarr xs =>
        rw [show renderJson (JsonValue.jarr xs) =
          lbrackChar :: (renderElems xs ++ [rbrackChar]) from by rw [renderJson]]
        rw [List.cons_append, List.append_assoc, List.singleton_append]
        cases xs with
        | nil =>
          rw [show renderElems [] = ([] : List Char) from by rw [renderElems]]
          rw [List.nil_append, parseVal, if_neg (by decide), if_pos rfl]
          rw [skipWs_of_head (by rw [List.headD_cons]; decide), List.headD_cons,
            if_pos rfl, List.tail_cons]
        | cons x xs2 =>
          obtain ⟨t, ht⟩ := renderElems_cons x xs2
          have hne : renderElems (x :: xs2) ≠ [] := by
            rw [ht]
            exact List.append_ne_nil_of_left_ne_nil (renderJson_head x).1 _
          have hhead : (renderElems (x :: xs2) ++ rbrackChar :: rest).headD quoteChar =
              (renderJson x).headD quoteChar := by
            rw [headD_append hne, ht, headD_append (renderJson_head x).1]
          rw [parseVal, if_neg (by decide), if_pos rfl]
          rw [skipWs_of_head (by rw [hhead]; exact (renderJson_head x).2.1)]
          rw [if_neg (by rw [hhead]; exact (renderJson_head x).2.2)]
          rw [jsize] at hsz
          rw [ihL (x :: xs2) rest (by simp) (by omega)]
          rfl
      | jobj fs =>
        rw [show renderJson (JsonValue.jobj fs) =
          lbraceChar :: (renderFields fs ++ [rbraceChar]) from by rw [renderJson]]
        rw [List.cons_append, List.append_assoc, List.singleton_append]
        cases fs with
        | nil =>
          rw [show renderFields [] = ([] : List Char) from by rw [renderFields]]
          rw [List.nil_append, parseVal, if_neg (by decide), if_neg (by decide), if_pos rfl]
          rw [skipWs_of_head (by rw [List.headD_cons]; decide), List.headD_cons,
            if_pos rfl, List.tail_cons]
        | cons f fs2 =>
          obtain ⟨k, v⟩ := f
          obtain ⟨t, ht⟩ := renderFields_cons k v fs2
          have hne : renderFields ((k, v) :: fs2) ≠ [] := by
            rw [ht]
            simp
          have hhead : (renderFields ((k, v) :: fs2) ++ rbraceChar :: rest).headD quoteChar =
              quoteChar := by
            rw [headD_append hne, ht, List.headD_cons]
          rw [parseVal, if_neg (by decide), if_neg (by decide), if_pos rfl]
          rw [skipWs_of_head (by rw [hhead]; decide)]
          rw [if_neg (by rw [hhead]; decide)]
          rw [jsize] at hsz
          rw [ihF ((k, v) :: fs2) rest (by simp) (by omega)]
          rfl
    · -- parseElems
      intro xs rest hne hsz
      obtain ⟨x, xs2, rfl⟩ := List.exists_cons_of_ne_nil hne
      rw [jsizeL_cons] at hsz
      have hx := jsize_pos x
      cases xs2 with
      | nil =>
        rw [show renderElems [x] = renderJson x from by rw [renderElems], parseElems]
        rw [jsizeL_nil] at hsz
        rw [ihV x (rbrackChar :: rest) (by omega) (by rw [List.headD_cons]; decide)]
        simp only [Option.some_bind]
        rw [skipWs_of_head (by rw [List.headD_cons]; decide), List.headD_cons]
        rw [if_neg (by decide), if_pos rfl, List.tail_cons]
      | cons y ys =>
        rw [show renderElems (x :: y :: ys) =
          renderJson x ++ (commaChar :: spaceChar :: renderElems (y :: ys)) from by
            rw [renderElems]]
        rw [List.append_assoc, List.cons_append, List.cons_append]
        rw [parseElems]
        have hy := jsize_pos y
        rw [jsizeL_cons] at hsz
        rw [ihV x _ (by omega) (by rw [List.headD_cons]; decide)]
        simp only [Option.some_bind]
        rw [skipWs_of_head (by rw [List.headD_cons]; decide), List.headD_cons,
          if_pos rfl, List.tail_cons, skipWs_space]
        obtain ⟨t, ht⟩ := renderElems_cons y ys
        have hne2 : renderElems (y :: ys) ≠ [] := by
          rw [ht]
          exact List.append_ne_nil_of_left_ne_nil (renderJson_head y).1 _
        rw [skipWs_of_head (by
          rw [headD_append hne2, ht, headD_append (renderJson_head y).1]
          exact (renderJson_head y).2.1)]
        rw [ihL (y :: ys) rest (by simp) (by rw [jsizeL_cons]; omega)]
        rfl
    · -- parseFields
      intro fs rest hne hsz
      obtain ⟨f, fs2, rfl⟩ := List.exists_cons_of_ne_nil hne
      obtain ⟨k, v⟩ := f
      rw [jsizeF_cons] at hsz
      have hx := jsize_pos v
      cases fs2 with
      | nil =>
        rw [show renderFields [(k, v)] =
          renderString k ++ (colonChar :: spaceChar :: renderJson v) from by rw [renderFields]]
        unfold renderString
        simp only [List.cons_append, List.append_assoc, List.singleton_append, List.nil_append]
        rw [parseFields, if_pos rfl]
        rw [parseStrBody_render]
        simp only [Option.some_bind]
        rw [skipWs_of_head (by rw [List.headD_cons]; decide), List.headD_cons, if_pos rfl,
          List.tail_cons, skipWs_space]
        rw [skipWs_of_head (by
          rw [headD_append (renderJson_head v).1]
          exact (renderJson_head v).2.1)]
        rw [jsizeF_nil] at hsz
        rw [ihV v (rbraceChar :: rest) (by omega) (by rw [List.headD_cons]; decide)]
        simp only [Option.some_bind]
        rw [skipWs_of_head (by rw [List.headD_cons]; decide), List.headD_cons,
          if_neg (by decide), if_pos rfl, List.tail_cons]
      | cons f2 fs3 =>
        rw [show renderFields ((k, v) :: f2 :: fs3) =
          renderString k ++ (colonChar :: spaceChar :: renderJson v) ++
            (commaChar :: spaceChar :: renderFields (f2 :: fs3)) from by rw [renderFields]]
        unfold renderString
        simp only [List.cons_append, List.append_assoc, List.singleton_append, List.nil_append]
        rw [parseFields, if_pos rfl]
        rw [parseStrBody_render]
        simp only [Option.some_bind]
        rw [skipWs_of_head (by rw [List.headD_cons]; decide), List.headD_cons, if_pos rfl,
          List.tail_cons, skipWs_space]
        rw [skipWs_of_head (by
          rw [headD_append (renderJson_head v).1]
          exact (renderJson_head v).2.1)]
        obtain ⟨k2, v2⟩ := f2
        rw [jsizeF_cons] at hsz
        have hv2 := jsize_pos v2
        rw [ihV v _ (by omega) (by rw [List.headD_cons]; decide)]
        simp only [Option.some_bind]
        rw [skipWs_of_head (by rw [List.headD_cons]; decide), List.headD_cons, if_pos rfl,
          List.tail_cons, skipWs_space]
        obtain ⟨t, ht⟩ := renderFields_cons k2 v2 fs3
        have hne2 : renderFields ((k2, v2) :: fs3) ≠ [] := by
          rw [ht]
          simp
        rw [skipWs_of_head (by rw [headD_append hne2, ht, List.headD_cons]; decide)]
        rw [ihF ((k2, v2) :: fs3) rest (by simp) (by rw [jsizeF_cons]; omega)]
        rfl

theorem jsonParse_render (v : JsonValue) : jsonParse ⟨renderJson v⟩ = some v := by
  have hd : (⟨renderJson v⟩ : String).data = renderJson v := rfl
  have hsk : skipWs (renderJson v) = renderJson v :=
    skipWs_of_head (renderJson_head v).2.1
  have hsz := (render_size (jsize v)).1 v le_rfl
  have h := (parse_render ((renderJson v).length + 1)).1 v [] (by omega) (by decide)
  rw [List.append_nil] at h
  unfold jsonParse
  simp only [hd, hsk, h]
  rfl

theorem mapOrNone_map_inv {α β : Type} (f : β → Option α) (g : α → β) (l : List α)
    (h : ∀ x ∈ l, f (g x) = some x) : mapOrNone f (l.map g) = some l := by
  induction l with
  | nil => rfl
  | cons a t ih =>
    rw [List.map_cons]
    unfold mapOrNone
    rw [h a (by simp), ih fun x hx => h x (by simp [hx])]
    rfl

theorem itemOfJson_itemJson (it : Item) : itemOfJson (itemJson it) = some it := by
  unfold itemJson
  show (match jsonField [("timestamp", JsonValue.jnum it.timestamp),
      ("source", JsonValue.jstr it.source), ("url", JsonValue.jstr it.url),
      ("title", JsonValue.jstr it.title), ("extract", JsonValue.jstr it.extract),
      ("links", JsonValue.jarr (it.links.map JsonValue.jstr))] "timestamp",
    jsonField [("timestamp", JsonValue.jnum it.timestamp),
      ("source", JsonValue.jstr it.source), ("url", JsonValue.jstr it.url),
      ("title", JsonValue.jstr it.title), ("extract", JsonValue.jstr it.extract),
      ("links", JsonValue.jarr (it.links.map JsonValue.jstr))] "source",
    jsonField [("timestamp", JsonValue.jnum it.timestamp),
      ("source", JsonValue.jstr it.source), ("url", JsonValue.jstr it.url),
      ("title", JsonValue.jstr it.title), ("extract", JsonValue.jstr it.extract),
      ("links", JsonValue.jarr (it.links.map JsonValue.jstr))] "url",
    jsonField [("timestamp", JsonValue.jnum it.timestamp),
      ("source", JsonValue.jstr it.source), ("url", JsonValue.jstr it.url),
      ("title", JsonValue.jstr it.title), ("extract", JsonValue.jstr it.extract),
      ("links", JsonValue.jarr (it.links.map JsonValue.jstr))] "title",
    jsonField [("timestamp", JsonValue.jnum it.timestamp),
      ("source", JsonValue.jstr it.source), ("url", JsonValue.jstr it.url),
      ("title", JsonValue.jstr it.title), ("extract", JsonValue.jstr it.extract),
      ("links", JsonValue.jarr (it.links.map JsonValue.jstr))] "extract",
    jsonField [("timestamp", JsonValue.jnum it.timestamp),
      ("source", JsonValue.jstr it.source), ("url", JsonValue.jstr it.url),
      ("title", JsonValue.jstr it.title), ("extract", JsonValue.jstr it.extract),
      ("links", JsonValue.jarr (it.links.map JsonValue.jstr))] "links" with
    | some (.jnum ts), some (.jstr src), some (.jstr u), some (.jstr ti),
        some (.jstr ex), some (.jarr ls) =>
      (match mapOrNone (fun x => match x with | .jstr s => some s | _ => none) ls with
       | some links => some (⟨ts, src, u, ti, ex, links⟩ : Item)
       | none => none)
    | _, _, _, _, _, _ => none) = some it
  rw [show jsonField [("timestamp", JsonValue.jnum it.timestamp),
      ("source", JsonValue.jstr it.source), ("url", JsonValue.jstr it.url),
      ("title", JsonValue.jstr it.title), ("extract", JsonValue.jstr it.extract),
      ("links", JsonValue.jarr (it.links.map JsonValue.jstr))] "timestamp" =
    some (JsonValue.jnum it.timestamp) from rfl]
  rw [show jsonField [("timestamp", JsonValue.jnum it.timestamp),
      ("source", JsonValue.jstr it.source), ("url", JsonValue.jstr it.url),
      ("title", JsonValue.jstr it.title), ("extract", JsonValue.jstr it.extract),
      ("links", JsonValue.jarr (it.links.map JsonValue.jstr))] "source" =
    some (JsonValue.jstr it.source) from rfl]
  rw [show jsonField [("timestamp", JsonValue.jnum it.timestamp),
      ("source", JsonValue.jstr it.source), ("url", JsonValue.jstr it.url),
      ("title", JsonValue.jstr it.title), ("extract", JsonValue.jstr it.extract),
      ("links", JsonValue.jarr (it.links.map JsonValue.jstr))] "url" =
    some (JsonValue.jstr it.url) from rfl]
  rw [show jsonField [("timestamp", JsonValue.jnum it.timestamp),
      ("source", JsonValue.jstr it.source), ("url", JsonValue.jstr it.url),
      ("title", JsonValue.jstr it.title), ("extract", JsonValue.jstr it.extract),
      ("links", JsonValue.jarr (it.links.map JsonValue.jstr))] "title" =
    some (JsonValue.jstr it.title) from rfl]
  rw [show jsonField [("timestamp", JsonValue.jnum it.timestamp),
      ("source", JsonValue.jstr it.source), ("url", JsonValue.jstr it.url),
      ("title", JsonValue.jstr it.title), ("extract", JsonValue.jstr it.extract),
      ("links", JsonValue.jarr (it.links.map JsonValue.jstr))] "extract" =
    some (JsonValue.jstr it.extract) from rfl]
  rw [show jsonField [("timestamp", JsonValue.jnum it.timestamp),
      ("source", JsonValue.jstr it.source), ("url", JsonValue.jstr it.url),
      ("title", JsonValue.jstr it.title), ("extract", JsonValue.jstr it.extract),
      ("links", JsonValue.jarr (it.links.map JsonValue.jstr))] "links" =
    some (JsonValue.jarr (it.links.map JsonValue.jstr)) from rfl]
  show (match mapOrNone (fun x => match x with | .jstr s => some s | _ => none)
      (it.links.map JsonValue.jstr) with
    | some links =>
      some (⟨it.timestamp, it.source, it.url, it.title, it.extract, links⟩ : Item)
    | none => none) = some it
  rw [mapOrNone_map_inv (fun x => match x with | JsonValue.jstr s => some s | _ => none)
    JsonValue.jstr it.links (fun x _ => rfl)]

theorem itemsOfJson_hashedBatchJson (hb : HashedBatch) :
    itemsOfJson (hashedBatchJson hb) = some hb.items := by
  unfold hashedBatchJson
  show (match jsonField [("user_id_hash", JsonValue.jstr hb.user_id_hash),
      ("timestamp", JsonValue.jnum hb.timestamp),
      ("items", JsonValue.jarr (hb.items.map itemJson))] "items" with
    | some (JsonValue.jarr xs) => mapOrNone itemOfJson xs
    | _ => none) = some hb.items
  rw [show jsonField [("user_id_hash", JsonValue.jstr hb.user_id_hash),
      ("timestamp", JsonValue.jnum hb.timestamp),
      ("items", JsonValue.jarr (hb.items.map itemJson))] "items" =
    some (JsonValue.jarr (hb.items.map itemJson)) from rfl]
  show mapOrNone itemOfJson (hb.items.map itemJson) = some hb.items
  rw [mapOrNone_map_inv _ _ hb.items (fun x _ => itemOfJson_itemJson x)]

/-! ## Claim C9 -/

theorem storeGet_storePut (k : String) (v : List Nat) (s : Store) :
    storeGet (storePut k v s) k = some v := by
  unfold storeGet storePut
  simp

theorem url_data_eq (now : UTCTime) (p : String) (rand : Nat) :
    (PUBLIC_URL_BASE ++ "1/" ++ VERSION ++ "/" ++ dateIso now ++ "/1/" ++ p ++ "/" ++
      batchIdOf now rand ++ FILE_NAME_SUFFIX).data =
      PUBLIC_URL_BASE.data ++ (filenameOf now p rand).data := by
  simp [filenameOf, String.data_append, List.append_assoc]

theorem urlContent_put (now : UTCTime) (p : String) (rand : Nat) (v : List Nat) (s : Store) :
    urlContent (storePut (filenameOf now p rand) v s)
      (PUBLIC_URL_BASE ++ "1/" ++ VERSION ++ "/" ++ dateIso now ++ "/1/" ++ p ++ "/" ++
        batchIdOf now rand ++ FILE_NAME_SUFFIX) = some v := by
  unfold urlContent
  rw [url_data_eq]
  rw [if_pos (by
    rw [List.isPrefixOf_iff_prefix]
    exact List.prefix_append _ _)]
  rw [List.drop_left]
  rw [show (⟨(filenameOf now p rand).data⟩ : String) = filenameOf now p rand from rfl]
  exact storeGet_storePut _ _ _

/-- Claim C9: the submit-then-fetch round trip.  A valid batch submitted at
time `now` with uuid randomness `rand` is stored under a key from which
`fetchBatch` (queried with the same date, the returned public id, and the
batch id of the stored key) recovers, after gzip decompression, UTF-8
decoding and JSON parsing, exactly the serialized `HashedBatch` tree, whose
item sequence is the submitted one. -/
theorem submit_then_fetch (b : Batch) (now : UTCTime) (rand : Nat) (st st2 : ServerState)
    (resp : SubmitResponse) (hy : now.year ≤ 9999) (hm : now.month ≤ 12) (hd : now.day ≤ 31)
    (h : create_batch b now rand false st = .ok (st2, resp)) :
    get_batch_from_id (dateIso now) resp.public_user_id (batchIdOf now rand) st2.store =
      .ok (hashedBatchJson (hashedBatchOf b now)) ∧
    (get_batch_from_id (dateIso now) resp.public_user_id (batchIdOf now rand)
        st2.store).map itemsOfJson = .ok (some b.items) := by
  obtain ⟨h1, h2, -, hst2, hresp⟩ := create_batch_ok_inv h
  subst hst2
  subst hresp
  have hdate : check_date_str (dateIso now) = .ok () := by
    unfold check_date_str
    have hf := dateIso_format now hy (by omega) (by omega)
    unfold specDateFormatFull at hf
    rw [Bool.and_eq_true] at hf
    rw [if_pos hf.1]
  have hpub : check_public_user_id (user_id_hash_of b.user_id) = .ok () := by
    unfold check_public_user_id
    rw [if_neg (by
      unfold user_id_hash_of
      rw [sha3_hexdigest_length]
      simp [PUBLIC_USER_ID_LENGTH])]
  have hutf : utf8Decode (utf8Encode (hashedBatchJsonStr (hashedBatchOf b now))) =
      some (renderJson (hashedBatchJson (hashedBatchOf b now))) := by
    rw [utf8Decode_encode]
    rfl
  have hmain : get_batch_from_id (dateIso now)
      (⟨"ok", user_id_hash_of b.user_id⟩ : SubmitResponse).public_user_id
      (batchIdOf now rand)
      (⟨storePut (filenameOf now (user_id_hash_of b.user_id) rand)
          (gzipCompress (utf8Encode (hashedBatchJsonStr (hashedBatchOf b now)))) st.store,
        some (hashedBatchOf b now)⟩ : ServerState).store =
      .ok (hashedBatchJson (hashedBatchOf b now)) := by
    simp only [get_batch_from_id, hdate, hpub, urlContent_put, gzip_roundtrip, hutf,
      jsonParse_render]
  refine ⟨hmain, ?_⟩
  rw [hmain]
  rw [show Except.map itemsOfJson
      (Except.ok (hashedBatchJson (hashedBatchOf b now)) : Except ReqError JsonValue) =
    Except.ok (itemsOfJson (hashedBatchJson (hashedBatchOf b now))) from rfl]
  rw [itemsOfJson_hashedBatchJson]
  rfl

/-- Witness for C9: a concrete batch round-trips through submit and fetch. -/
theorem submit_then_fetch_w :
    exNow.year ≤ 9999 ∧ exNow.month ≤ 12 ∧ exNow.day ≤ 31 ∧
    (get_batch_from_id (dateIso exNow)
        (⟨"ok", user_id_hash_of exBatch.user_id⟩ : SubmitResponse).public_user_id
        (batchIdOf exNow 5)
        (⟨storePut (filenameOf exNow (user_id_hash_of exBatch.user_id) 5)
            (gzipCompress (utf8Encode (hashedBatchJsonStr (hashedBatchOf exBatch exNow))))
            initState.store,
          some (hashedBatchOf exBatch exNow)⟩ : ServerState).store).map itemsOfJson =
      .ok (some exBatch.items) :=
  ⟨by decide, by decide, by decide,
    (submit_then_fetch exBatch exNow 5 initState _ _ (by decide) (by decide) (by decide)
      (create_batch_ok_of_valid exBatch exNow 5 initState (by decide) (by decide))).2⟩
